import Mathlib

/-!
Ravn: route and nearby food-spot discovery.

A shallow embedding of the pure logic of `src/screens/Route.jsx` and
`src/screens/Nearby.jsx`, with the properties of the specification stated and
proved over it.

Conventions of the embedding.

* A JavaScript string is the list of its UTF-16 code units (`List Nat`);
  `t.charCodeAt(i)` past the end of the string is `NaN`.
* A 32-bit integer produced by the bitwise operators is kept as its bit
  pattern, a natural number below `2 ^ 32`; `int32` reads the pattern as the
  signed value JavaScript sees.
* JavaScript numbers that hold integers or coordinates are exact integers and
  rationals: the accumulated `lat` and `lng` are integers and the quotient
  `lat / 1e5` is the rational it denotes.
-/

namespace Ravn

/-! ## Route.jsx: `decodePolyline` -/

/-- A point `{ latitude, longitude }` as pushed by `decodePolyline`. -/
structure Coordinate where
  latitude : ℚ
  longitude : ℚ
deriving DecidableEq

/-- The code units of a string whose characters are all in the basic
multilingual plane (every ASCII string is). -/
def codeUnits (s : String) : List Nat := s.toList.map Char.toNat

/-- The signed value of a 32-bit pattern. -/
def int32 (u : Nat) : Int := if u < 2 ^ 31 then (u : Int) else (u : Int) - 2 ^ 32

/-- The 32-bit pattern of `b & 0x1f` for the number `b = charCode - 63`:
`ToInt32 b` keeps `b` modulo `2 ^ 32`, and the mask keeps its low five bits. -/
def and0x1f (b : Int) : Nat := (b % 32).toNat

/-- The 32-bit pattern of `x << shift`: JavaScript uses the shift count modulo
32 and keeps the low 32 bits of the product. -/
def shl32 (x shift : Nat) : Nat := (x <<< (shift % 32)) % 2 ^ 32

/-- One `do { b = t.charCodeAt(index++) - 63; result |= (b & 0x1f) << shift;
shift += 5; } while (b >= 0x20)` loop, started at `index` with `rest` the
characters of `t` from `index` on. Returns `result`, the new `index` and the
characters left.

Past the end of the string `charCodeAt` is `NaN`: `NaN & 0x1f` is `0`, so
`result` is unchanged, `index` is still incremented, and `NaN >= 0x20` is
false, which ends the loop. -/
def readGroup : List Nat → Nat → Nat → Nat → Nat × Nat × List Nat
  | [], index, _, result => (result, index + 1, [])
  | c :: rest, index, shift, result =>
    let b : Int := (c : Int) - 63
    let result := result ||| shl32 (and0x1f b) shift
    if b ≥ 0x20 then readGroup rest (index + 1) (shift + 5) result
    else (result, index + 1, rest)

/-- The delta `(result & 1) ? ~(result >> 1) : result >> 1`. -/
def unzigzag (result : Nat) : Int :=
  if result &&& 1 ≠ 0 then -(int32 result >>> (1 : Nat)) - 1 else int32 result >>> (1 : Nat)

/-- The `while (index < t.length)` loop of `decodePolyline`; `rest` holds the
characters of `t` from `index` on, so the loop condition is `rest ≠ []`. The
first argument bounds the number of passes. The sums `lat += dlat` and
`lng += dlng` are exact: each delta is a 32-bit integer, and a JavaScript
number holds every integer below `2 ^ 53` in magnitude. -/
def decodeLoop : Nat → List Nat → Nat → Int → Int → List Coordinate → List Coordinate
  | 0, _, _, _, _, points => points
  | fuel + 1, rest, index, lat, lng, points =>
    if rest = [] then points
    else
      let g := readGroup rest index 0 0
      let lat := lat + unzigzag g.1
      let h := readGroup g.2.2 g.2.1 0 0
      let lng := lng + unzigzag h.1
      decodeLoop fuel h.2.2 h.2.1 lat lng
        (points ++ [{ latitude := (lat : ℚ) / 100000, longitude := (lng : ℚ) / 100000 }])

/-- The function `decodePolyline` of `Route.jsx`. Every pass of the outer loop reads
at least one character, so `t.length` passes are enough. -/
def decodePolyline (t : List Nat) : List Coordinate :=
  decodeLoop t.length t 0 0 0 []

/-- The completion of a call of `decodePolyline`. Its body has no `throw`, and
`charCodeAt`, the bitwise and arithmetic operators and `push` do not throw on
a string argument, so every call completes normally with the array built by
the loop. -/
def decodePolylineCompletion (t : List Nat) : Except String (List Coordinate) :=
  Except.ok (decodePolyline t)

/-! ### The standard polyline encoding

The repository has no encoder. The round-trip property is stated against the
standard encoding as the specification words it: zig-zag signed deltas of the
`1e5`-scaled values, 5-bit groups, continuation bit `0x20`, ASCII offset 63,
latitude then longitude. -/

/-- Zig-zag encoding of a signed delta: `d << 1`, bitwise inverted when `d` is negative. -/
def specZigzag (d : Int) : Nat := if d < 0 then (-(2 * d) - 1).toNat else (2 * d).toNat

/-- The 5-bit groups of `v`, low group first, each but the last with the
continuation bit `0x20`, all offset by 63. The first argument bounds the number
of groups; `v` itself is always enough. -/
def specEncodeGroups : Nat → Nat → List Nat
  | 0, v => [v + 63]
  | fuel + 1, v =>
    if v ≥ 0x20 then ((0x20 ||| (v &&& 0x1f)) + 63) :: specEncodeGroups fuel (v >>> 5)
    else [v + 63]

/-- The characters of one signed delta. -/
def specEncodeSigned (d : Int) : List Nat := specEncodeGroups (specZigzag d) (specZigzag d)

/-- The `1e5`-scaled value of a coordinate component, rounded to the nearest integer. -/
def specScale (x : ℚ) : Int := round (x * 100000)

/-- Encoding of the points after a point with scaled components `lat`, `lng`. -/
def specEncodeFrom : Int → Int → List Coordinate → List Nat
  | _, _, [] => []
  | lat, lng, p :: ps =>
    specEncodeSigned (specScale p.latitude - lat) ++
      specEncodeSigned (specScale p.longitude - lng) ++
      specEncodeFrom (specScale p.latitude) (specScale p.longitude) ps

/-- The standard polyline encoding of a coordinate sequence. -/
def specEncodePolyline (seq : List Coordinate) : List Nat := specEncodeFrom 0 0 seq

/-- The point the decoder returns for an encoded point: its components rounded
to five decimals. -/
def roundedPoint (p : Coordinate) : Coordinate :=
  { latitude := (specScale p.latitude : ℚ) / 100000
    longitude := (specScale p.longitude : ℚ) / 100000 }

/-- A coordinate in the valid ranges: latitude in `[-90, 90]`, longitude in `[-180, 180]`. -/
def Coordinate.Valid (p : Coordinate) : Prop :=
  -90 ≤ p.latitude ∧ p.latitude ≤ 90 ∧ -180 ≤ p.longitude ∧ p.longitude ≤ 180

/-- The last character of the input has the continuation bit set
(`charCode - 63 >= 0x20`), so its group is cut short. -/
def EndsInContinuation (t : List Nat) : Prop := ∃ c, t.getLast? = some c ∧ 95 ≤ c

/-! ## Route.jsx: `fetchFoodSpotsAlongRoute` and `fetchRoute` -/

/-- A place record of the nearby-search response, with the fields the
screens read. `open_now` is the value of `place.opening_hours?.open_now`
(`none` when it is `undefined`), `location` is `place.geometry?.location` as
`{ lat, lng }`, `rating` is present when `typeof rating === "number"`. -/
structure Place where
  place_id : String
  name : String
  location : Option Coordinate
  rating : Option ℚ
  price_level : Option Nat
  open_now : Option Bool
  vicinity : Option String
  photos : List String
deriving DecidableEq

/-- The array method `filter((x, i) => p x i)`, started at index `i`. -/
def filterWithIndex {α : Type} (p : α → Nat → Bool) : List α → Nat → List α
  | [], _ => []
  | x :: xs, i =>
    if p x i then x :: filterWithIndex p xs (i + 1) else filterWithIndex p xs (i + 1)

/-- The sample centres: `path.filter((_, i) => i % 15 === 0)`. -/
def sampled {α : Type} (path : List α) : List α :=
  filterWithIndex (fun _ i => i % 15 == 0) path 0

/-- The array index a property key denotes, if it is one: a canonical decimal
numeral (digits only, no leading zero except `"0"` itself) of a value below
`2 ^ 32 - 1`. -/
def arrayIndex? (key : String) : Option Nat :=
  let cs := key.toList
  if cs ≠ [] ∧ cs.all Char.isDigit = true ∧ (cs.head? ≠ some '0' ∨ cs.length = 1) then
    let n := cs.foldl (fun n c => 10 * n + (c.toNat - 48)) 0
    if n < 2 ^ 32 - 1 then some n else none
  else none

/-- Own properties of a plain object, in the order they were created. -/
abbrev JsObject (α : Type) := List (String × α)

/-- Replaces the value of the own property `key`, or creates it at the end. -/
def setOwn {α : Type} : JsObject α → String → α → JsObject α
  | [], key, value => [(key, value)]
  | (k, v) :: rest, key, value =>
    if k = key then (k, value) :: rest else (k, v) :: setOwn rest key value

/-- The assignment `acc[key] = value` on an object created by `{}` whose
values are objects. The key `"__proto__"` is the accessor inherited from
`Object.prototype`: assigning it changes the prototype of `acc` and creates no
own property. Every other key is an ordinary own property. -/
def objectSet {α : Type} (acc : JsObject α) (key : String) (value : α) : JsObject α :=
  if key = "__proto__" then acc else setOwn acc key value

/-- The array `Object.values(obj)`: the values of the array-index keys in ascending
numeric order, then those of the other keys in creation order. -/
def objectValues {α : Type} (obj : JsObject α) : List α :=
  (((obj.filter (fun kv => (arrayIndex? kv.1).isSome)).insertionSort
      (fun a b => (arrayIndex? a.1).getD 0 ≤ (arrayIndex? b.1).getD 0)) ++
    obj.filter (fun kv => !(arrayIndex? kv.1).isSome)).map Prod.snd

/-- The object built by `spots.reduce((acc, curr) => { acc[curr.place_id] = curr; return acc; }, {})`. -/
def reduceById (spots : List Place) : JsObject Place :=
  spots.foldl (fun acc curr => objectSet acc curr.place_id curr) []

/-- The deduplication `Object.values(spots.reduce(..., {}))` that ends `fetchFoodSpotsAlongRoute`. -/
def dedupeSpots (spots : List Place) : List Place := objectValues (reduceById spots)

/-- A place record with the given identifier and name and no other field. -/
def barePlace (place_id name : String) : Place :=
  { place_id := place_id
    name := name
    location := none
    rating := none
    price_level := none
    open_now := none
    vicinity := none
    photos := [] }

/-- The state `filters` of the route screen. -/
structure RouteFilters where
  foodType : String
  maxDistanceFromRoute : ℚ
  openNow : Bool
deriving DecidableEq

/-- The query of a nearby-search URL (the API key apart). -/
structure NearbyRequest where
  location : Coordinate
  radius : ℚ
  type : String
  keyword : Option String
  opennow : Bool
deriving DecidableEq

/-- The request `fetchFoodSpotsAlongRoute` builds for a sampled point. -/
def nearbyRequest (filters : RouteFilters) (point : Coordinate) : NearbyRequest :=
  { location := point
    radius := filters.maxDistanceFromRoute * 1609
    type := "restaurant"
    keyword := if filters.foodType ≠ "" then some filters.foodType else none
    opennow := filters.openNow }

/-- The nearby-search call `await fetch(url)` followed by `await res.json()`:
either it throws, or it yields `data.results` (`none` when that field is
absent or falsy). -/
abbrev NearbySearch := NearbyRequest → Except String (Option (List Place))

/-- The loop `for (const point of sampled)` with `spots` the results
accumulated so far. Nothing catches a call that throws. -/
def collectSpots (search : NearbySearch) (filters : RouteFilters) :
    List Coordinate → List Place → Except String (List Place)
  | [], spots => Except.ok spots
  | point :: points, spots =>
    match search (nearbyRequest filters point) with
    | Except.error e => Except.error e
    | Except.ok (some results) => collectSpots search filters points (spots ++ results)
    | Except.ok none => collectSpots search filters points spots

/-- The function `fetchFoodSpotsAlongRoute` of `Route.jsx`. -/
def fetchFoodSpotsAlongRoute (search : NearbySearch) (filters : RouteFilters)
    (path : List Coordinate) : Except String (List Place) :=
  match collectSpots search filters (sampled path) [] with
  | Except.error e => Except.error e
  | Except.ok spots => Except.ok (dedupeSpots spots)

deriving instance DecidableEq for Except

/-- A nearby search that throws for the requests centred at `bad` and
returns `results` for every other request. -/
def failingAt (bad : Coordinate) (results : List Place) : NearbySearch :=
  fun request =>
    if request.location = bad then Except.error "Network request failed"
    else Except.ok (some results)

/-- A path of 16 points: fifteen at `(0, 0)`, then one at `(1, 1)`. -/
def sixteenPoints : List Coordinate := List.replicate 15 ⟨0, 0⟩ ++ [⟨1, 1⟩]

/-- The query of a directions URL (the API key apart). -/
structure DirectionsRequest where
  origin : Coordinate
  destination : Coordinate
deriving DecidableEq

/-- The directions call: either it throws, or it yields, for each element of
`data.routes`, its `overview_polyline.points`. -/
abbrev Directions := DirectionsRequest → Except String (List (List Nat))

/-- The state of the route screen that `fetchRoute` writes. -/
structure RouteState where
  routeCoords : List Coordinate
  foodSpots : List Place
deriving DecidableEq

/-- How a call of `fetchRoute` ends: the state it leaves, and the error it
threw, if any. -/
structure RouteOutcome where
  state : RouteState
  thrown : Option String
deriving DecidableEq

/-- The function `fetchRoute` of `Route.jsx`. -/
def fetchRoute (directions : Directions) (search : NearbySearch) (filters : RouteFilters)
    (origin destination : Coordinate) (st : RouteState) : RouteOutcome :=
  match directions { origin := origin, destination := destination } with
  | Except.error e => { state := st, thrown := some e }
  | Except.ok [] => { state := st, thrown := none }
  | Except.ok (route :: _) =>
    let points := decodePolyline route
    let st := { st with routeCoords := points }
    match fetchFoodSpotsAlongRoute search filters points with
    | Except.error e => { state := st, thrown := some e }
    | Except.ok spots => { state := { st with foodSpots := spots }, thrown := none }

/-! ## Nearby.jsx: `filteredPlaces` -/

/-- The state `filters` of the nearby screen. -/
structure NearbyFilters where
  openNow : Bool
  maxPrice : Nat
  maxDistance : ℚ
deriving DecidableEq

/-- The callback of `places.filter(...)`. The argument `dist` is
`getDistanceInMiles` read as a number, as the comparison
`distance > filters.maxDistance` reads the string it returns. A condition
joined by `&&` is skipped when an operand is falsy: a `maxPrice`, `price_level`
or `maxDistance` of `0`, a missing `price_level`, `location` or
`geometry.location`. -/
def keepPlace (dist : ℚ → ℚ → ℚ → ℚ → ℚ) (filters : NearbyFilters)
    (location : Option Coordinate) (place : Place) : Bool :=
  if filters.openNow = true ∧ place.open_now ≠ some true then false
  else if filters.maxPrice ≠ 0 ∧ place.price_level.getD 0 ≠ 0 ∧
      place.price_level.getD 0 > filters.maxPrice then false
  else
    match location, place.location with
    | some loc, some spot =>
      if filters.maxDistance ≠ 0 ∧
          dist loc.latitude loc.longitude spot.latitude spot.longitude > filters.maxDistance
      then false else true
    | _, _ => true

/-- The callback of `.sort(...)`: negative when `a` goes first. -/
def comparePlaces (filters : NearbyFilters) (a b : Place) : ℚ :=
  let aPrice := a.price_level.getD 0
  let bPrice := b.price_level.getD 0
  let target := filters.maxPrice
  if aPrice = target ∧ bPrice ≠ target then -1
  else if bPrice = target ∧ aPrice ≠ target then 1
  else b.rating.getD 0 - a.rating.getD 0

/-- The value `filteredPlaces` of `Nearby.jsx`. `Array.prototype.sort` is stable
and the callback is a consistent comparator, so the sorted array is the stable
sort by it. -/
def filteredPlaces (dist : ℚ → ℚ → ℚ → ℚ → ℚ) (filters : NearbyFilters)
    (location : Option Coordinate) (places : List Place) : List Place :=
  (places.filter (keepPlace dist filters location)).insertionSort
    (fun a b => comparePlaces filters a b ≤ 0)

/-- The condition of the first `if` of the filter callback:
`filters.openNow && !place.opening_hours?.open_now`. -/
def excludedByOpenNow (filters : NearbyFilters) (place : Place) : Bool :=
  if filters.openNow = true ∧ place.open_now ≠ some true then true else false

/-- The condition of the second `if` of the filter callback:
`filters.maxPrice && place.price_level && place.price_level > filters.maxPrice`. -/
def excludedByPrice (filters : NearbyFilters) (place : Place) : Bool :=
  if filters.maxPrice ≠ 0 ∧ place.price_level.getD 0 ≠ 0 ∧
      place.price_level.getD 0 > filters.maxPrice then true else false

/-- The third `if` of the filter callback: under the guard
`location && filters.maxDistance && place.geometry?.location`, the test
`distance > filters.maxDistance`. -/
def excludedByDistance (dist : ℚ → ℚ → ℚ → ℚ → ℚ) (filters : NearbyFilters)
    (location : Option Coordinate) (place : Place) : Bool :=
  match location, place.location with
  | some loc, some spot =>
    if filters.maxDistance ≠ 0 ∧
        dist loc.latitude loc.longitude spot.latitude spot.longitude > filters.maxDistance
    then true else false
  | _, _ => false

/-! ## Nearby.jsx: `getDistanceInMiles`

The function is modelled over real arithmetic: `Math.sin`, `Math.cos`,
`Math.sqrt` and `Math.atan2` are the real functions and `Math.PI` is `π`.
The code computes in IEEE doubles, whose rounding the real functions leave out:
the double value of the constant `a` can exceed `1` by a rounding error, and
then `Math.sqrt(1 - a)` is `NaN`. `resultOfTerm` below models what the code
does from the value of `a` on, `NaN` included. -/

/-- The helper `toRad = (x) => (x * Math.PI) / 180`. -/
noncomputable def toRad (x : ℝ) : ℝ := x * Real.pi / 180

/-- The real function behind `Math.atan2(y, x)`: the angle in `(-π, π]` of the
point `(x, y)`, and `0` at the origin. -/
noncomputable def atan2 (y x : ℝ) : ℝ := Complex.arg ⟨x, y⟩

/-- The constant `a` of `getDistanceInMiles`, over real arithmetic. The double
the code computes differs from it by the rounding errors of the operations. -/
noncomputable def haversineTerm (lat1 lon1 lat2 lon2 : ℝ) : ℝ :=
  let dLat := toRad (lat2 - lat1)
  let dLon := toRad (lon2 - lon1)
  Real.sin (dLat / 2) * Real.sin (dLat / 2) +
    Real.cos (toRad lat1) * Real.cos (toRad lat2) * Real.sin (dLon / 2) * Real.sin (dLon / 2)

/-- The constant `distanceInKm` of `getDistanceInMiles`, over real arithmetic:
`R * c` with `R = 6371` and `c = 2 * Math.atan2(Math.sqrt(a), Math.sqrt(1 - a))`.
It is what the code computes, up to rounding errors, while `a` and `1 - a` are
not negative; on a negative argument `Math.sqrt` is `NaN`, which `resultOfTerm`
models and this definition does not. -/
noncomputable def distanceInKm (lat1 lon1 lat2 lon2 : ℝ) : ℝ :=
  let R : ℝ := 6371
  let a := haversineTerm lat1 lon1 lat2 lon2
  let c := 2 * atan2 (Real.sqrt a) (Real.sqrt (1 - a))
  R * c

/-- The number that the string `x.toFixed(1)` denotes, for `x` below `10 ^ 21` in
magnitude: the multiple of `1 / 10` nearest to `x`, the one larger in magnitude
when two are equally near. -/
noncomputable def toFixed1 (x : ℝ) : ℚ :=
  if x < 0 then -((⌊-x * 10 + 1 / 2⌋ : ℤ) : ℚ) / 10 else ((⌊x * 10 + 1 / 2⌋ : ℤ) : ℚ) / 10

/-- The function `getDistanceInMiles` of `Nearby.jsx` over real arithmetic, its
result read as the number its string denotes. -/
noncomputable def getDistanceInMiles (lat1 lon1 lat2 lon2 : ℝ) : ℚ :=
  toFixed1 (distanceInKm lat1 lon1 lat2 lon2 * 0.621371)

/-- The distance argument of `keepPlace` and `filteredPlaces` as `Nearby.jsx`
supplies it. -/
noncomputable def distanceOf (lat1 lon1 lat2 lon2 : ℚ) : ℚ :=
  getDistanceInMiles (lat1 : ℝ) (lon1 : ℝ) (lat2 : ℝ) (lon2 : ℝ)

/-! ## Nearby.jsx: `fetchPlaces` -/

/-- The constants `aOpen` and `bOpen` of the sort callback of `fetchPlaces`:
`opening_hours?.open_now ? 1 : 0`. -/
def openRank (place : Place) : Int := if place.open_now = some true then 1 else 0

/-- The sort callback of `fetchPlaces`: `bOpen - aOpen`, negative when `a` goes first. -/
def compareOpen (a b : Place) : Int := openRank b - openRank a

/-- The array `data.results.sort(...)` of `fetchPlaces`, the stable sort by the
callback. -/
def sortOpenFirst (results : List Place) : List Place :=
  results.insertionSort (fun a b => compareOpen a b ≤ 0)

/-- The state of the nearby screen that `fetchPlaces` writes. -/
structure NearbyState where
  location : Option Coordinate
  places : List Place
  loading : Bool
  refreshing : Bool
deriving DecidableEq

/-- The function `fetchPlaces` of `Nearby.jsx`. The argument `granted` tells whether
the permission status is `"granted"`, `coords` is the current position, and
`response` is what the `try` block gets: `data.results`, or the error it
catches. -/
def fetchPlaces (granted : Bool) (coords : Coordinate) (response : Except String (List Place))
    (st : NearbyState) : NearbyState :=
  if granted = false then { st with loading := false, refreshing := false }
  else
    match response with
    | Except.error _ => { st with location := some coords, loading := false, refreshing := false }
    | Except.ok results =>
      { location := some coords
        places := sortOpenFirst results
        loading := false
        refreshing := false }

/-- The initial value of the state `filters` of the nearby screen. -/
def defaultFilters : NearbyFilters := { openNow := false, maxPrice := 4, maxDistance := 5 }

/-- The list the nearby screen shows: `filteredPlaces` computed from its state. -/
noncomputable def shownPlaces (filters : NearbyFilters) (st : NearbyState) : List Place :=
  filteredPlaces distanceOf filters st.location st.places

/-- The distinct elements of a list in the order of their first occurrence. -/
def distinctInOrder (ids : List String) : List String :=
  ids.foldl (fun acc id => if id ∈ acc then acc else acc ++ [id]) []

/-- The function `Math.sqrt` on a number that is not `NaN`: `none` stands for
the `NaN` it returns on a negative argument. -/
noncomputable def sqrtOrNaN (x : ℝ) : Option ℝ := if x < 0 then none else some (Real.sqrt x)

/-- What `getDistanceInMiles` returns once the constant `a` has the value `a`:
`c = 2 * Math.atan2(Math.sqrt(a), Math.sqrt(1 - a))`, then
`(R * c * 0.621371).toFixed(1)`. A `NaN` square root makes `c`, the products
and the string `"NaN"`, for which `none` stands. -/
noncomputable def resultOfTerm (a : ℝ) : Option ℚ :=
  match sqrtOrNaN a, sqrtOrNaN (1 - a) with
  | some y, some x => some (toFixed1 (6371 * (2 * atan2 y x) * 0.621371))
  | _, _ => none

/-- The haversine great-circle distance in miles as the specification words it:
`2 * 6371 * arcsin (sqrt h) * 0.621371` with
`h = sin² (dLat / 2) + cos lat1 * cos lat2 * sin² (dLon / 2)`, the angles in
radians. -/
noncomputable def specHaversineMiles (lat1 lon1 lat2 lon2 : ℝ) : ℝ :=
  2 * 6371 *
    Real.arcsin (Real.sqrt
      (Real.sin ((lat2 - lat1) * Real.pi / 180 / 2) ^ 2 +
        Real.cos (lat1 * Real.pi / 180) * Real.cos (lat2 * Real.pi / 180) *
          Real.sin ((lon2 - lon1) * Real.pi / 180 / 2) ^ 2)) * 0.621371

/-! ## The filter states the screens can hold

The state `filters` of a screen is written only by `useState` with its initial
value and by the `setFilters` calls of the buttons of the filter panel. -/

/-- A press of a button of the filter panel of `Nearby.jsx`: the open-now toggle,
one of the price buttons `[1, 2, 3, 4].map(...)`, or one of the distance
buttons `[0.5, 1, 2, 5, 10].map(...)`. -/
inductive NearbyPress where
  | openNow : NearbyPress
  | price : Fin 4 → NearbyPress
  | distance : Fin 5 → NearbyPress
deriving DecidableEq

/-- The `setFilters` call of the pressed button of `Nearby.jsx`. -/
def pressNearby (filters : NearbyFilters) : NearbyPress → NearbyFilters
  | NearbyPress.openNow => { filters with openNow := !filters.openNow }
  | NearbyPress.price i => { filters with maxPrice := ([1, 2, 3, 4] : List Nat).get i }
  | NearbyPress.distance i =>
    { filters with maxDistance := ([1 / 2, 1, 2, 5, 10] : List ℚ).get i }

/-- The state `filters` of the nearby screen after a sequence of presses. -/
def nearbyFiltersAfter (presses : List NearbyPress) : NearbyFilters :=
  presses.foldl pressNearby defaultFilters

/-- The array `foodTypes` of `Route.jsx`. -/
def foodTypes : List String :=
  ["burgers", "tacos", "ramen", "pizza", "sushi", "chinese", "indian", "thai",
    "korean", "bbq", "vegan", "seafood", "mexican", "noodles", "salad",
    "dessert", "cafe", "italian", "mediterranean", "fast food", "steak", "pho"]

/-- The initial value of the state `filters` of the route screen. -/
def initialRouteFilters : RouteFilters :=
  { foodType := "", maxDistanceFromRoute := 1, openNow := false }

/-- A press of a button of the filter panel of `Route.jsx`: the open-now toggle,
an option of the food-type list, one of the distance buttons
`[0.5, 1, 2, 5].map(...)`, or `Clear Filters`. -/
inductive RoutePress where
  | openNow : RoutePress
  | foodType : Fin 22 → RoutePress
  | distance : Fin 4 → RoutePress
  | clear : RoutePress
deriving DecidableEq

/-- The `setFilters` call of the pressed button of `Route.jsx`. `Clear Filters`
leaves `openNow` out of the new state, which reads as false. -/
def pressRoute (filters : RouteFilters) : RoutePress → RouteFilters
  | RoutePress.openNow => { filters with openNow := !filters.openNow }
  | RoutePress.foodType i => { filters with foodType := foodTypes.get i }
  | RoutePress.distance i =>
    { filters with maxDistanceFromRoute := ([1 / 2, 1, 2, 5] : List ℚ).get i }
  | RoutePress.clear => { foodType := "", maxDistanceFromRoute := 1, openNow := false }

/-- The state `filters` of the route screen after a sequence of presses. -/
def routeFiltersAfter (presses : List RoutePress) : RouteFilters :=
  presses.foldl pressRoute initialRouteFilters

/-! ## Bit-level facts -/

theorem lor_shiftLeft_of_lt (r x s : Nat) (h : r < 2 ^ s) :
    r ||| (x <<< s) = r + x * 2 ^ s := by
  rw [Nat.lor_comm, Nat.shiftLeft_eq, Nat.mul_comm, ← Nat.mul_add_lt_is_or h]
  omega

theorem continuation_group (v : Nat) : 0x20 ||| (v &&& 0x1f) = 32 + v % 32 := by
  have h1 : v &&& 31 = v % 32 := Nat.and_pow_two_sub_one_eq_mod v 5
  have h2 : v % 32 < 2 ^ 5 := Nat.mod_lt _ (by norm_num)
  have h3 := Nat.mul_add_lt_is_or h2 1
  simp only [Nat.reducePow, Nat.mul_one] at h3
  show 32 ||| (v &&& 31) = 32 + v % 32
  rw [h1, ← h3]

theorem and0x1f_natCast (x : Nat) : and0x1f (x : Int) = x % 32 := by
  unfold and0x1f
  omega

/-- One step of the accumulation `result |= (b & 0x1f) << shift` without overflow. -/
theorem lor_shl32 (result x shift : Nat) (hs : shift < 32) (hr : result < 2 ^ shift)
    (hx : x * 2 ^ shift < 2 ^ 32) : result ||| shl32 x shift = result + x * 2 ^ shift := by
  unfold shl32
  have h : x <<< shift % 2 ^ 32 = x <<< shift := by
    rw [Nat.shiftLeft_eq]
    exact Nat.mod_eq_of_lt hx
  rw [Nat.mod_eq_of_lt hs, h, lor_shiftLeft_of_lt result x shift hr]

theorem unzigzag_eq (u : Nat) :
    unzigzag u = if u % 2 = 1 then -(int32 u / 2) - 1 else int32 u / 2 := by
  unfold unzigzag
  rw [Int.shiftRight_eq_div_pow, Nat.and_one_is_mod]
  have h : ((2 ^ 1 : Nat) : Int) = 2 := by norm_num
  rw [h]
  by_cases h2 : u % 2 = 1
  · simp [h2]
  · have h3 : u % 2 = 0 := by omega
    simp [h3]

theorem unzigzag_specZigzag (d : Int) (h : specZigzag d < 2 ^ 31) :
    unzigzag (specZigzag d) = d := by
  rw [unzigzag_eq]
  unfold int32
  rw [if_pos h]
  unfold specZigzag at *
  split_ifs at * <;> omega

theorem specEncodeGroups_length_pos (fuel v : Nat) : 0 < (specEncodeGroups fuel v).length := by
  cases fuel with
  | zero => simp [specEncodeGroups]
  | succ n =>
    unfold specEncodeGroups
    split_ifs <;> simp

/-- Reading an encoded group gives back its value: started with `result` below
`2 ^ shift`, the loop adds `v * 2 ^ shift` and stops right after the group. -/
theorem readGroup_specEncodeGroups (fuel : Nat) :
    ∀ (v shift result index : Nat) (rest : List Nat), v ≤ fuel → shift < 32 →
      result < 2 ^ shift → v * 2 ^ shift < 2 ^ 32 →
      readGroup (specEncodeGroups fuel v ++ rest) index shift result =
        (result + v * 2 ^ shift, index + (specEncodeGroups fuel v).length, rest) := by
  induction fuel with
  | zero =>
    intro v shift result index rest hv hs hr hx
    have hv0 : v = 0 := by omega
    subst hv0
    simp [specEncodeGroups, readGroup, and0x1f, shl32]
  | succ n ih =>
    intro v shift result index rest hv hs hr hx
    unfold specEncodeGroups
    by_cases hge : v ≥ 0x20
    · rw [if_pos hge, continuation_group]
      have hP : 0 < 2 ^ shift := Nat.pow_pos (by norm_num)
      have hmod : v % 32 < 32 := Nat.mod_lt _ (by norm_num)
      have hdecomp : v * 2 ^ shift = (v / 32) * (32 * 2 ^ shift) + (v % 32) * 2 ^ shift := by
        have h0 : v = 32 * (v / 32) + v % 32 := (Nat.div_add_mod v 32).symm
        calc v * 2 ^ shift = (32 * (v / 32) + v % 32) * 2 ^ shift := by rw [← h0]
          _ = (v / 32) * (32 * 2 ^ shift) + (v % 32) * 2 ^ shift := by ring
      have hpow : 2 ^ (shift + 5) = 32 * 2 ^ shift := by rw [pow_add]; ring
      have hq : 1 ≤ v / 32 := by
        have hge2 : 32 ≤ v := hge
        omega
      have hq2 : 32 * 2 ^ shift ≤ (v / 32) * (32 * 2 ^ shift) := Nat.le_mul_of_pos_left _ hq
      have hm2 : (v % 32) * 2 ^ shift ≤ 31 * 2 ^ shift := Nat.mul_le_mul_right _ (by omega)
      have hs5 : shift + 5 < 32 := by
        by_contra hcon
        have h27 : 2 ^ 27 ≤ 2 ^ shift := Nat.pow_le_pow_right (by norm_num) (by omega)
        have : (2 : Nat) ^ 32 = 32 * 2 ^ 27 := by norm_num
        omega
      have hstep : result ||| shl32 (v % 32) shift = result + (v % 32) * 2 ^ shift :=
        lor_shl32 result (v % 32) shift hs hr (by omega)
      have hb : (((32 + v % 32 + 63 : Nat) : Int) - 63) = ((32 + v % 32 : Nat) : Int) := by
        push_cast; ring
      have hand : and0x1f ((32 + v % 32 : Nat) : Int) = v % 32 := by
        rw [and0x1f_natCast]; omega
      have hcont : ((32 + v % 32 : Nat) : Int) ≥ 0x20 := by
        push_cast; omega
      rw [List.cons_append, readGroup]
      simp only [hb, hand, hstep, if_pos hcont]
      have hshift : v >>> 5 = v / 32 := by rw [Nat.shiftRight_eq_div_pow]
      rw [hshift, ih (v / 32) (shift + 5) (result + v % 32 * 2 ^ shift) (index + 1) rest
        (by omega) hs5 (by omega) (by rw [hpow]; omega)]
      rw [hpow, hdecomp, List.length_cons]
      congr 1
      · omega
      · congr 1
        omega
    · rw [if_neg hge]
      have hlt : v < 32 := by
        have : ¬ (32 ≤ v) := hge
        omega
      have hstep : result ||| shl32 v shift = result + v * 2 ^ shift :=
        lor_shl32 result v shift hs hr hx
      have hb : (((v + 63 : Nat) : Int) - 63) = (v : Int) := by
        push_cast; ring
      have hand : and0x1f (v : Int) = v := by
        rw [and0x1f_natCast]; omega
      have hcont : ¬ ((v : Int) ≥ 0x20) := by
        omega
      simp only [List.cons_append, List.nil_append, readGroup, hb, hand, hstep, if_neg hcont,
        List.length_singleton]
      rfl

/-! ## The loops of `decodePolyline` -/

theorem decodeLoop_nil (fuel index : Nat) (lat lng : Int) (points : List Coordinate) :
    decodeLoop fuel [] index lat lng points = points := by
  cases fuel <;> simp [decodeLoop]

/-- Every group read takes at least one character when there is one. -/
theorem readGroup_rest_length (rest : List Nat) :
    ∀ (index shift result : Nat),
      (readGroup rest index shift result).2.2.length ≤ rest.length - 1 := by
  induction rest with
  | nil => intro index shift result; simp [readGroup]
  | cons c cs ih =>
    intro index shift result
    rw [readGroup]
    split_ifs
    · have := ih (index + 1) (shift + 5) (result ||| shl32 (and0x1f ((c : Int) - 63)) shift)
      simp only [List.length_cons, Nat.add_sub_cancel]
      omega
    · simp

/-- The result of the decoding loop does not depend on the bound on the number
of passes once the bound is at least the number of characters left. -/
theorem decodeLoop_fuel (fuel : Nat) :
    ∀ (fuel' : Nat) (rest : List Nat) (index : Nat) (lat lng : Int) (points : List Coordinate),
      rest.length ≤ fuel → rest.length ≤ fuel' →
      decodeLoop fuel rest index lat lng points = decodeLoop fuel' rest index lat lng points := by
  induction fuel with
  | zero =>
    intro fuel' rest index lat lng points h1 _
    have hnil : rest = [] := List.eq_nil_of_length_eq_zero (by omega)
    subst hnil
    rw [decodeLoop_nil, decodeLoop_nil]
  | succ n ih =>
    intro fuel' rest index lat lng points h1 h2
    by_cases hnil : rest = []
    · subst hnil
      rw [decodeLoop_nil, decodeLoop_nil]
    · have hpos : 0 < rest.length := List.length_pos.mpr hnil
      cases fuel' with
      | zero => omega
      | succ m =>
        rw [decodeLoop, decodeLoop, if_neg hnil, if_neg hnil]
        have g1 := readGroup_rest_length rest index 0 0
        have g2 := readGroup_rest_length (readGroup rest index 0 0).2.2
          (readGroup rest index 0 0).2.1 0 0
        exact ih m _ _ _ _ _ (by omega) (by omega)

/-- The points pushed before a pass stay in front of those pushed after it. -/
theorem decodeLoop_append (fuel : Nat) :
    ∀ (rest : List Nat) (index : Nat) (lat lng : Int) (points : List Coordinate),
      decodeLoop fuel rest index lat lng points =
        points ++ decodeLoop fuel rest index lat lng [] := by
  induction fuel with
  | zero => intro rest index lat lng points; simp [decodeLoop]
  | succ n ih =>
    intro rest index lat lng points
    by_cases hnil : rest = []
    · subst hnil
      simp [decodeLoop_nil]
    · rw [decodeLoop, decodeLoop, if_neg hnil, if_neg hnil]
      simp only
      rw [ih _ _ _ _ (points ++ _), ih _ _ _ _ ([] ++ _)]
      simp

theorem shl32_zero (shift : Nat) : shl32 0 shift = 0 := by
  simp [shl32]

theorem endsInContinuation_cons (c : Nat) (cs : List Nat) (hcs : cs ≠ [])
    (h : EndsInContinuation (c :: cs)) : EndsInContinuation cs := by
  obtain ⟨d, hd, hge⟩ := h
  refine ⟨d, ?_, hge⟩
  cases cs with
  | nil => exact absurd rfl hcs
  | cons e es => simpa [List.getLast?_cons_cons] using hd

theorem endsInContinuation_ne_nil (t : List Nat) (h : EndsInContinuation t) : t ≠ [] := by
  obtain ⟨d, hd, _⟩ := h
  intro hnil
  subst hnil
  simp at hd

/-- A group read from an input cut short after a continuation character: with
the terminating character 63 appended the group reads the same value, and what
is left is either nothing in both cases or the same characters, again cut short. -/
theorem readGroup_append_terminator (rest : List Nat) :
    ∀ (index shift result : Nat), EndsInContinuation rest →
      (readGroup (rest ++ [63]) index shift result).1 = (readGroup rest index shift result).1 ∧
      (readGroup (rest ++ [63]) index shift result).2.1 =
        (readGroup rest index shift result).2.1 ∧
      (((readGroup rest index shift result).2.2 = [] ∧
          (readGroup (rest ++ [63]) index shift result).2.2 = []) ∨
        (EndsInContinuation (readGroup rest index shift result).2.2 ∧
          (readGroup (rest ++ [63]) index shift result).2.2 =
            (readGroup rest index shift result).2.2 ++ [63])) := by
  induction rest with
  | nil => intro index shift result h; exact absurd rfl (endsInContinuation_ne_nil _ h)
  | cons c cs ih =>
    intro index shift result h
    by_cases hcs : cs = []
    · subst hcs
      obtain ⟨d, hd, hge⟩ := h
      simp only [List.getLast?_singleton, Option.some.injEq] at hd
      subst hd
      have hcont : ((c : Int) - 63) ≥ 0x20 := by
        have : (95 : Int) ≤ (c : Int) := by exact_mod_cast hge
        omega
      simp [readGroup, hcont, and0x1f, shl32_zero]
    · have hrec := endsInContinuation_cons c cs hcs h
      rw [List.cons_append, readGroup, readGroup]
      by_cases hcont : ((c : Int) - 63) ≥ 0x20
      · simp only [if_pos hcont]
        exact ih _ _ _ hrec
      · simp only [if_neg hcont]
        exact ⟨trivial, trivial, Or.inr ⟨hrec, trivial⟩⟩

/-- The decoding loop on an input cut short after a continuation character
returns what it returns with the terminating character 63 appended. -/
theorem decodeLoop_append_terminator (fuel : Nat) :
    ∀ (rest : List Nat) (index : Nat) (lat lng : Int) (points : List Coordinate),
      EndsInContinuation rest → rest.length ≤ fuel →
      decodeLoop fuel (rest ++ [63]) index lat lng points =
        decodeLoop fuel rest index lat lng points := by
  induction fuel with
  | zero =>
    intro rest index lat lng points h hlen
    exact absurd (List.eq_nil_of_length_eq_zero (by omega)) (endsInContinuation_ne_nil _ h)
  | succ n ih =>
    intro rest index lat lng points h hlen
    have hne := endsInContinuation_ne_nil _ h
    have hne' : rest ++ [63] ≠ [] := by simp
    rw [decodeLoop, decodeLoop, if_neg hne, if_neg hne']
    simp only
    obtain ⟨a1, a2, a3⟩ := readGroup_append_terminator rest index 0 0 h
    have g1 := readGroup_rest_length rest index 0 0
    have hpos : 0 < rest.length := List.length_pos.mpr hne
    rw [a1, a2]
    rcases a3 with ⟨e1, e2⟩ | ⟨c1, c2⟩
    · rw [e1, e2]
    · rw [c2]
      obtain ⟨b1, b2, b3⟩ := readGroup_append_terminator (readGroup rest index 0 0).2.2
        (readGroup rest index 0 0).2.1 0 0 c1
      have g2 := readGroup_rest_length (readGroup rest index 0 0).2.2
        (readGroup rest index 0 0).2.1 0 0
      rw [b1, b2]
      rcases b3 with ⟨e1, e2⟩ | ⟨d1, d2⟩
      · rw [e1, e2]
      · rw [d2]
        exact ih _ _ _ _ _ d1 (by omega)

/-! ## The decoder on encoded sequences -/

theorem specScale_bounds (x : ℚ) (n : Int) (hlo : -(n : ℚ) ≤ x * 100000)
    (hhi : x * 100000 ≤ (n : ℚ)) : -n ≤ specScale x ∧ specScale x ≤ n := by
  unfold specScale
  have h := abs_sub_round (x * 100000)
  rw [abs_le] at h
  obtain ⟨h1, h2⟩ := h
  constructor
  · have h3 : ((-n - 1 : Int) : ℚ) < ((round (x * 100000) : Int) : ℚ) := by
      push_cast
      linarith
    have h4 : -n - 1 < round (x * 100000) := by exact_mod_cast h3
    omega
  · have h3 : ((round (x * 100000) : Int) : ℚ) < ((n + 1 : Int) : ℚ) := by
      push_cast
      linarith
    have h4 : round (x * 100000) < n + 1 := by exact_mod_cast h3
    omega

theorem specScale_valid (p : Coordinate) (h : p.Valid) :
    (-9000000 ≤ specScale p.latitude ∧ specScale p.latitude ≤ 9000000) ∧
      (-18000000 ≤ specScale p.longitude ∧ specScale p.longitude ≤ 18000000) := by
  obtain ⟨h1, h2, h3, h4⟩ := h
  constructor
  · have := specScale_bounds p.latitude 9000000 (by push_cast; linarith) (by push_cast; linarith)
    simpa using this
  · have := specScale_bounds p.longitude 18000000 (by push_cast; linarith) (by push_cast; linarith)
    simpa using this

theorem specZigzag_lt (d : Int) (hlo : -36000000 ≤ d) (hhi : d ≤ 36000000) :
    specZigzag d < 72000001 := by
  unfold specZigzag
  split_ifs <;> omega

/-- Reading the characters of a signed delta yields its zig-zag value and
leaves what follows them. -/
theorem readGroup_specEncodeSigned (d : Int) (hlo : -36000000 ≤ d) (hhi : d ≤ 36000000)
    (index : Nat) (rest : List Nat) :
    readGroup (specEncodeSigned d ++ rest) index 0 0 =
      (specZigzag d, index + (specEncodeSigned d).length, rest) := by
  have hz := specZigzag_lt d hlo hhi
  have h := readGroup_specEncodeGroups (specZigzag d) (specZigzag d) 0 0 index rest
    (Nat.le_refl _) (by norm_num) (by norm_num) (by norm_num; omega)
  simpa [specEncodeSigned] using h

/-- The decoding loop on the encoding of `seq` after a point `(lat, lng)`. -/
theorem decodeLoop_specEncodeFrom (seq : List Coordinate) :
    ∀ (fuel index : Nat) (lat lng : Int) (points : List Coordinate),
      (∀ p ∈ seq, p.Valid) → -9000000 ≤ lat → lat ≤ 9000000 → -18000000 ≤ lng →
      lng ≤ 18000000 → (specEncodeFrom lat lng seq).length ≤ fuel →
      decodeLoop fuel (specEncodeFrom lat lng seq) index lat lng points =
        points ++ seq.map roundedPoint := by
  induction seq with
  | nil =>
    intro fuel index lat lng points _ _ _ _ _ _
    simp [specEncodeFrom, decodeLoop_nil]
  | cons p ps ih =>
    intro fuel index lat lng points hvalid h1 h2 h3 h4 hfuel
    obtain ⟨⟨b1, b2⟩, b3, b4⟩ := specScale_valid p (hvalid p (List.mem_cons_self _ _))
    have hlat := readGroup_specEncodeSigned (specScale p.latitude - lat) (by omega) (by omega)
    have hlng := readGroup_specEncodeSigned (specScale p.longitude - lng) (by omega) (by omega)
    have zlat := unzigzag_specZigzag (specScale p.latitude - lat)
      (by have := specZigzag_lt (specScale p.latitude - lat) (by omega) (by omega); omega)
    have zlng := unzigzag_specZigzag (specScale p.longitude - lng)
      (by have := specZigzag_lt (specScale p.longitude - lng) (by omega) (by omega); omega)
    have l1 := specEncodeGroups_length_pos (specZigzag (specScale p.latitude - lat))
      (specZigzag (specScale p.latitude - lat))
    have l2 := specEncodeGroups_length_pos (specZigzag (specScale p.longitude - lng))
      (specZigzag (specScale p.longitude - lng))
    have hne : specEncodeFrom lat lng (p :: ps) ≠ [] := by
      intro hnil
      have hlen := congrArg List.length hnil
      simp only [specEncodeFrom, specEncodeSigned, List.length_append, List.length_nil] at hlen
      omega
    cases fuel with
    | zero =>
      exfalso
      apply hne
      exact List.eq_nil_of_length_eq_zero (by omega)
    | succ n =>
      rw [decodeLoop, if_neg hne]
      simp only [specEncodeFrom, List.append_assoc] at hfuel ⊢
      simp only [hlat, hlng, zlat, zlng]
      have e1 : lat + (specScale p.latitude - lat) = specScale p.latitude := by ring
      have e2 : lng + (specScale p.longitude - lng) = specScale p.longitude := by ring
      rw [e1, e2, ih n _ _ _ _ (fun q hq => hvalid q (List.mem_cons_of_mem _ hq)) b1 b2 b3 b4
        (by simp [specEncodeSigned] at hfuel ⊢; omega)]
      simp [roundedPoint]

/-- Decoding the standard encoding returns every point rounded to five decimals. -/
theorem decodePolyline_specEncodePolyline (seq : List Coordinate) (h : ∀ p ∈ seq, p.Valid) :
    decodePolyline (specEncodePolyline seq) = seq.map roundedPoint := by
  unfold decodePolyline specEncodePolyline
  rw [decodeLoop_specEncodeFrom seq _ 0 0 0 [] h (by norm_num) (by norm_num) (by norm_num)
    (by norm_num) (Nat.le_refl _)]
  simp

theorem roundedPoint_close (p : Coordinate) :
    |(roundedPoint p).latitude - p.latitude| ≤ 1 / 100000 ∧
      |(roundedPoint p).longitude - p.longitude| ≤ 1 / 100000 := by
  have key : ∀ x : ℚ, |(specScale x : ℚ) / 100000 - x| ≤ 1 / 100000 := by
    intro x
    have h := abs_sub_round (x * 100000)
    rw [abs_le] at h ⊢
    unfold specScale
    obtain ⟨h1, h2⟩ := h
    constructor <;> linarith
  exact ⟨key p.latitude, key p.longitude⟩

/-! ## Properties of `decodePolyline` -/

/-- The code units of the reference string of the polyline format. -/
theorem codeUnits_reference :
    codeUnits "_p~iF~ps|U_ulLnnqC_mqNvxq`@" =
      [95, 112, 126, 105, 70, 126, 112, 115, 124, 85, 95, 117, 108, 76, 110, 110, 113, 67,
        95, 109, 113, 78, 118, 120, 113, 96, 64] := by
  decide

/-- C1 (as amended): `decodePolyline` applied to the reference string returns the
three-point sequence (38.5, -120.2), (40.7, -120.95), (43.252, -126.453), in
that order; its first two points are those the specification lists. -/
theorem decodePolyline_reference :
    decodePolyline (codeUnits "_p~iF~ps|U_ulLnnqC_mqNvxq`@") =
      [⟨38.5, -120.2⟩, ⟨40.7, -120.95⟩, ⟨43.252, -126.453⟩] := by
  rw [codeUnits_reference]
  simp [decodePolyline, decodeLoop, readGroup, unzigzag, int32, and0x1f, shl32,
    Int.shiftRight_eq_div_pow, Nat.shiftRight_eq_div_pow]
  norm_num

/-- C1 (counterexample): on the reference string `decodePolyline` does not return
the two-point sequence (38.5, -120.2), (40.7, -120.95): it returns three points. -/
theorem decodePolyline_reference_not_two_points :
    decodePolyline (codeUnits "_p~iF~ps|U_ulLnnqC_mqNvxq`@") ≠ [⟨38.5, -120.2⟩, ⟨40.7, -120.95⟩] ∧
      (decodePolyline (codeUnits "_p~iF~ps|U_ulLnnqC_mqNvxq`@")).length = 3 := by
  rw [codeUnits_reference]
  simp [decodePolyline, decodeLoop, readGroup, unzigzag, int32, and0x1f, shl32,
    Int.shiftRight_eq_div_pow]

theorem specScale_of_eq (x : ℚ) (n : Int) (h : x * 100000 = (n : ℚ)) : specScale x = n := by
  unfold specScale
  rw [h, round_intCast]

/-- The encoder agrees with the reference vector of the format: the three
reference points encode to the reference string. -/
theorem specEncodePolyline_reference :
    specEncodePolyline [⟨38.5, -120.2⟩, ⟨40.7, -120.95⟩, ⟨43.252, -126.453⟩] =
      codeUnits "_p~iF~ps|U_ulLnnqC_mqNvxq`@" := by
  rw [codeUnits_reference]
  have r1 : specScale 38.5 = 3850000 := specScale_of_eq _ _ (by norm_num)
  have r2 : specScale (-120.2) = -12020000 := specScale_of_eq _ _ (by norm_num)
  have r3 : specScale 40.7 = 4070000 := specScale_of_eq _ _ (by norm_num)
  have r4 : specScale (-120.95) = -12095000 := specScale_of_eq _ _ (by norm_num)
  have r5 : specScale 43.252 = 4325200 := specScale_of_eq _ _ (by norm_num)
  have r6 : specScale (-126.453) = -12645300 := specScale_of_eq _ _ (by norm_num)
  simp only [specEncodePolyline, specEncodeFrom, r1, r2, r3, r4, r5, r6]
  decide

/-- C2: round trip. For every sequence of valid coordinates, decoding its
standard polyline encoding returns a sequence of the same length whose every
latitude and longitude is within `1e-5` of the original. -/
theorem decodePolyline_roundTrip (seq : List Coordinate) (h : ∀ p ∈ seq, p.Valid) :
    (decodePolyline (specEncodePolyline seq)).length = seq.length ∧
      ∀ (i : Nat) (p q : Coordinate), seq[i]? = some p →
        (decodePolyline (specEncodePolyline seq))[i]? = some q →
        |q.latitude - p.latitude| ≤ 1 / 100000 ∧ |q.longitude - p.longitude| ≤ 1 / 100000 := by
  rw [decodePolyline_specEncodePolyline seq h]
  refine ⟨List.length_map _ _, ?_⟩
  intro i p q hp hq
  rw [List.getElem?_map, hp] at hq
  simp only [Option.map_some', Option.some.injEq] at hq
  subst hq
  exact roundedPoint_close p

theorem decodePolyline_roundTrip_witness :
    (∀ p ∈ [(⟨38.5, -120.2⟩ : Coordinate), ⟨40.7, -120.95⟩, ⟨43.252, -126.453⟩], p.Valid) ∧
      specEncodePolyline [⟨38.5, -120.2⟩, ⟨40.7, -120.95⟩, ⟨43.252, -126.453⟩] =
        codeUnits "_p~iF~ps|U_ulLnnqC_mqNvxq`@" ∧
      (decodePolyline (specEncodePolyline
          [⟨38.5, -120.2⟩, ⟨40.7, -120.95⟩, ⟨43.252, -126.453⟩])).length = 3 :=
  have hvalid : ∀ p ∈ [(⟨38.5, -120.2⟩ : Coordinate), ⟨40.7, -120.95⟩, ⟨43.252, -126.453⟩],
      p.Valid := by
    intro p hp
    simp only [List.mem_cons, List.mem_singleton, List.not_mem_nil, or_false] at hp
    rcases hp with rfl | rfl | rfl <;> (unfold Coordinate.Valid; norm_num)
  ⟨hvalid, specEncodePolyline_reference, (decodePolyline_roundTrip _ hvalid).1⟩

/-- C3: `decodePolyline` returns the empty sequence for the empty string and at
least one coordinate for every non-empty string, valid encodings included. -/
theorem decodePolyline_empty_and_nonempty :
    decodePolyline [] = [] ∧ ∀ t : List Nat, t ≠ [] → 1 ≤ (decodePolyline t).length := by
  refine ⟨rfl, ?_⟩
  intro t ht
  unfold decodePolyline
  cases t with
  | nil => exact absurd rfl ht
  | cons c cs =>
    rw [List.length_cons, decodeLoop, if_neg ht]
    simp only
    rw [decodeLoop_append]
    simp

theorem decodePolyline_empty_and_nonempty_witness :
    [95, 112, 126, 105, 70, 126, 112, 115, 124, 85] ≠ ([] : List Nat) ∧
      1 ≤ (decodePolyline [95, 112, 126, 105, 70, 126, 112, 115, 124, 85]).length :=
  ⟨by decide, decodePolyline_empty_and_nonempty.2 _ (by decide)⟩

/-- C4 (counterexample): `decodePolyline` completes normally, with a coordinate
sequence, on an input whose last character has the continuation bit set
(`"_"`), on a latitude group followed by no longitude group (`"?"`), and on an
input with a character of code below 63 (`">?"`). -/
theorem decodePolyline_accepts_malformed :
    (EndsInContinuation [95] ∧ decodePolylineCompletion [95] = Except.ok [⟨0, 0⟩]) ∧
      decodePolylineCompletion [63] = Except.ok [⟨0, 0⟩] ∧
      decodePolylineCompletion [62, 63] = Except.ok [⟨-16 / 100000, 0⟩] := by
  refine ⟨⟨⟨95, rfl, by decide⟩, ?_⟩, ?_, ?_⟩ <;>
    simp [decodePolylineCompletion, decodePolyline, decodeLoop, readGroup, unzigzag_eq, int32,
      and0x1f, shl32]

/-- C4 (as amended): `decodePolyline` consumes the entire input and never fails.
For every input it completes normally with a coordinate sequence; the loop
stops only at the end of the input, so allowing more passes changes nothing;
and an input cut short after a character with the continuation bit decodes as
the same input followed by the terminating character of code 63, the missing
bits being read as zero. -/
theorem decodePolyline_total (t : List Nat) :
    decodePolylineCompletion t = Except.ok (decodePolyline t) ∧
      (∀ extra : Nat, decodeLoop (t.length + extra) t 0 0 0 [] = decodePolyline t) ∧
      (EndsInContinuation t → decodePolyline t = decodePolyline (t ++ [63])) := by
  refine ⟨rfl, ?_, ?_⟩
  · intro extra
    exact decodeLoop_fuel _ _ _ _ _ _ _ (by omega) (Nat.le_refl _)
  · intro h
    unfold decodePolyline
    rw [List.length_append, List.length_singleton,
      decodeLoop_append_terminator _ _ _ _ _ _ h (by omega)]
    exact decodeLoop_fuel _ _ _ _ _ _ _ (Nat.le_refl _) (by omega)

theorem decodePolyline_total_witness :
    EndsInContinuation [95, 112, 126] ∧
      decodePolyline [95, 112, 126] = decodePolyline ([95, 112, 126] ++ [63]) :=
  ⟨⟨126, rfl, by decide⟩, (decodePolyline_total [95, 112, 126]).2.2 ⟨126, rfl, by decide⟩⟩

/-! ## Route sampling -/

/-- Points whose indices are not multiples of 15 are skipped. -/
theorem filterWithIndex_skip {α : Type} (j : Nat) :
    ∀ (l : List α) (i : Nat), (∀ m, m < j → (i + m) % 15 ≠ 0) →
      filterWithIndex (fun _ i => i % 15 == 0) l i =
        filterWithIndex (fun _ i => i % 15 == 0) (l.drop j) (i + j) := by
  induction j with
  | zero => intro l i _; simp
  | succ n ih =>
    intro l i h
    cases l with
    | nil => simp [filterWithIndex]
    | cons x xs =>
      have h0 : i % 15 ≠ 0 := by simpa using h 0 (by omega)
      rw [filterWithIndex]
      simp only [beq_iff_eq, h0, if_false, List.drop_succ_cons]
      rw [ih xs (i + 1) (fun m hm => by have := h (m + 1) (by omega); rwa [show i + 1 + m = i + (m + 1) by omega])]
      congr 1
      omega

theorem filterWithIndex_step {α : Type} (x : α) (xs : List α) (i : Nat) (hi : i % 15 = 0) :
    filterWithIndex (fun _ i => i % 15 == 0) (x :: xs) i =
      x :: filterWithIndex (fun _ i => i % 15 == 0) (xs.drop 14) (i + 15) := by
  rw [filterWithIndex]
  simp only [beq_iff_eq, hi, if_true]
  rw [filterWithIndex_skip 14 xs (i + 1) (fun m hm => by omega)]

theorem filterWithIndex_every_15th {α : Type} (n : Nat) :
    ∀ (l : List α) (i : Nat), l.length ≤ n → i % 15 = 0 →
      (filterWithIndex (fun _ i => i % 15 == 0) l i).length = (l.length + 14) / 15 ∧
      ∀ k, k < (l.length + 14) / 15 →
        (filterWithIndex (fun _ i => i % 15 == 0) l i)[k]? = l[15 * k]? := by
  induction n with
  | zero =>
    intro l i hl _
    have hnil : l = [] := List.eq_nil_of_length_eq_zero (by omega)
    subst hnil
    simp [filterWithIndex]
  | succ n ih =>
    intro l i hl hi
    cases l with
    | nil => simp [filterWithIndex]
    | cons x xs =>
      rw [filterWithIndex_step x xs i hi]
      have hlen : (xs.drop 14).length = xs.length - 14 := List.length_drop _ _
      obtain ⟨h1, h2⟩ := ih (xs.drop 14) (i + 15)
        (by rw [hlen]; simp only [List.length_cons] at hl; omega) (by omega)
      constructor
      · simp only [List.length_cons, h1, hlen]
        omega
      · intro k hk
        cases k with
        | zero => simp
        | succ k =>
          simp only [List.length_cons] at hk
          have hk2 : k < ((xs.drop 14).length + 14) / 15 := by rw [hlen]; omega
          rw [List.getElem?_cons_succ, h2 k hk2, List.getElem?_drop,
            show 15 * (k + 1) = (14 + 15 * k) + 1 by ring, List.getElem?_cons_succ]

/-- C5: route sampling. For every path of length `n` the sampled centres are
`path[0], path[15], path[30], ...` in path order and there are `⌈n / 15⌉`
of them; for a path of 90 points they are the 6 points at indices 0, 15, 30,
45, 60, 75. -/
theorem sampled_every_15th {α : Type} (path : List α) :
    (sampled path).length = (path.length + 14) / 15 ∧
      (∀ k, k < (path.length + 14) / 15 →
        15 * k < path.length ∧ (sampled path)[k]? = path[15 * k]?) ∧
      (path.length = 90 →
        (sampled path).map some =
          [path[0]?, path[15]?, path[30]?, path[45]?, path[60]?, path[75]?]) := by
  obtain ⟨h1, h2⟩ := filterWithIndex_every_15th path.length path 0 (Nat.le_refl _) rfl
  refine ⟨h1, fun k hk => ⟨by omega, h2 k hk⟩, ?_⟩
  intro h90
  rw [h90] at h1 h2
  apply List.ext_getElem?
  intro k
  rw [List.getElem?_map]
  by_cases hk : k < 6
  · have := h2 k (by omega)
    rw [show sampled path = filterWithIndex (fun _ i => i % 15 == 0) path 0 from rfl, this]
    have hlt : 15 * k < path.length := by omega
    rw [List.getElem?_eq_getElem hlt]
    interval_cases k <;> simp [List.getElem?_eq_getElem hlt]
  · have hlen : (sampled path).length ≤ k := by
      rw [show sampled path = filterWithIndex (fun _ i => i % 15 == 0) path 0 from rfl, h1]
      omega
    rw [List.getElem?_eq_none hlen, List.getElem?_eq_none (by simp; omega)]
    rfl

theorem sampled_every_15th_witness :
    (2 < ((List.range 90).length + 14) / 15) ∧
      (15 * 2 < (List.range 90).length ∧ (sampled (List.range 90))[2]? = (List.range 90)[15 * 2]?) :=
  ⟨by decide, (sampled_every_15th (List.range 90)).2.1 2 (by decide)⟩

/-! ## Deduplication by `place_id` -/

theorem setOwn_keys {α : Type} (obj : JsObject α) (key : String) (value : α) :
    (setOwn obj key value).map Prod.fst =
      if key ∈ obj.map Prod.fst then obj.map Prod.fst else obj.map Prod.fst ++ [key] := by
  induction obj with
  | nil => simp [setOwn]
  | cons kv rest ih =>
    obtain ⟨k, v⟩ := kv
    rw [setOwn]
    by_cases hk : k = key
    · subst hk
      simp
    · have hk' : ¬ key = k := fun h => hk h.symm
      simp only [if_neg hk, List.map_cons, ih, List.mem_cons, hk', false_or]
      split_ifs <;> simp

theorem mem_setOwn_self {α : Type} (obj : JsObject α) (key : String) (value : α) :
    (key, value) ∈ setOwn obj key value := by
  induction obj with
  | nil => simp [setOwn]
  | cons kv rest ih =>
    obtain ⟨k, v⟩ := kv
    rw [setOwn]
    by_cases hk : k = key
    · subst hk
      simp
    · simp only [if_neg hk, List.mem_cons]
      exact Or.inr ih

theorem mem_setOwn {α : Type} (obj : JsObject α) (key : String) (value : α) (kv : String × α)
    (h : kv ∈ setOwn obj key value) : kv = (key, value) ∨ kv ∈ obj := by
  induction obj with
  | nil => simpa [setOwn] using h
  | cons e rest ih =>
    obtain ⟨k, v⟩ := e
    rw [setOwn] at h
    by_cases hk : k = key
    · subst hk
      simp only [if_true, List.mem_cons] at h
      rcases h with h | h
      · exact Or.inl h
      · exact Or.inr (List.mem_cons_of_mem _ h)
    · simp only [if_neg hk, List.mem_cons] at h
      rcases h with h | h
      · exact Or.inr (by rw [h]; exact List.mem_cons_self _ _)
      · rcases ih h with h' | h'
        · exact Or.inl h'
        · exact Or.inr (List.mem_cons_of_mem _ h')

theorem reduceById_append (spots : List Place) (s : Place) :
    reduceById (spots ++ [s]) = objectSet (reduceById spots) s.place_id s := by
  simp [reduceById, List.foldl_append]

/-- What the accumulator of the `reduce` holds: its keys are distinct, every
entry is filed under its own `place_id` and is the last record of the input
with it, and every `place_id` of the input other than `"__proto__"` is a key. -/
theorem reduceById_spec (spots : List Place) :
    ((reduceById spots).map Prod.fst).Nodup ∧
      (∀ kv ∈ reduceById spots, kv.2.place_id = kv.1 ∧ kv.1 ≠ "__proto__" ∧
        spots.reverse.find? (fun s => s.place_id == kv.1) = some kv.2) ∧
      (∀ s ∈ spots, s.place_id ≠ "__proto__" → s.place_id ∈ (reduceById spots).map Prod.fst) := by
  induction spots using List.reverseRecOn with
  | nil => simp [reduceById]
  | append_singleton spots s ih =>
    obtain ⟨ih1, ih2, ih3⟩ := ih
    rw [reduceById_append]
    unfold objectSet
    by_cases hp : s.place_id = "__proto__"
    · rw [if_pos hp]
      refine ⟨ih1, ?_, ?_⟩
      · intro kv hkv
        obtain ⟨a, b, c⟩ := ih2 kv hkv
        refine ⟨a, b, ?_⟩
        have hne : (s.place_id == kv.1) = false := by
          rw [beq_eq_false_iff_ne, hp]
          exact fun h => b h.symm
        rw [List.reverse_append, List.reverse_singleton, List.singleton_append,
          List.find?_cons_of_neg _ (by simp [hne])]
        exact c
      · intro s' hs' hne
        simp only [List.mem_append, List.mem_singleton] at hs'
        rcases hs' with h | h
        · exact ih3 s' h hne
        · subst h
          exact absurd hp hne
    · rw [if_neg hp]
      have hnodup : ((setOwn (reduceById spots) s.place_id s).map Prod.fst).Nodup := by
        rw [setOwn_keys]
        split_ifs with hmem
        · exact ih1
        · exact List.Nodup.append ih1 (List.nodup_singleton _) (by simpa using hmem)
      have hself := mem_setOwn_self (reduceById spots) s.place_id s
      refine ⟨hnodup, ?_, ?_⟩
      · intro kv hkv
        have hcase : kv = (s.place_id, s) ∨ (kv ∈ reduceById spots ∧ kv.1 ≠ s.place_id) := by
          by_cases hk : kv.1 = s.place_id
          · exact Or.inl (List.inj_on_of_nodup_map hnodup hkv hself hk)
          · rcases mem_setOwn _ _ _ _ hkv with h | h
            · exact Or.inl h
            · exact Or.inr ⟨h, hk⟩
        rcases hcase with h | ⟨h, hk⟩
        · subst h
          refine ⟨rfl, hp, ?_⟩
          simp [List.find?_cons]
        · obtain ⟨a, b, c⟩ := ih2 kv h
          refine ⟨a, b, ?_⟩
          have hne : (s.place_id == kv.1) = false := by
            rw [beq_eq_false_iff_ne]
            exact fun h => hk h.symm
          rw [List.reverse_append, List.reverse_singleton, List.singleton_append,
            List.find?_cons_of_neg _ (by simp [hne])]
          exact c
      · intro s' hs' hne
        rw [setOwn_keys]
        simp only [List.mem_append, List.mem_singleton] at hs'
        rcases hs' with h | h
        · have := ih3 s' h hne
          split_ifs
          · exact this
          · exact List.mem_append_left _ this
        · subst h
          split_ifs with hmem
          · exact hmem
          · simp

/-- The array `Object.values(obj)` holds the values of `obj`, each once. -/
theorem objectValues_perm {α : Type} (obj : JsObject α) :
    (objectValues obj).Perm (obj.map Prod.snd) := by
  unfold objectValues
  apply List.Perm.map
  exact ((List.perm_insertionSort _ _).append_right _).trans (List.filter_append_perm _ obj)

/-- The identifiers of the deduplicated records are the keys of the accumulator. -/
theorem dedupeSpots_ids_perm (spots : List Place) :
    ((dedupeSpots spots).map Place.place_id).Perm ((reduceById spots).map Prod.fst) := by
  have h1 := (objectValues_perm (reduceById spots)).map Place.place_id
  have h2 : ((reduceById spots).map Prod.snd).map Place.place_id =
      (reduceById spots).map Prod.fst := by
    rw [List.map_map]
    apply List.map_congr_left
    intro kv hkv
    exact ((reduceById_spec spots).2.1 kv hkv).1
  rw [h2] at h1
  exact h1

theorem mem_dedupeSpots (spots : List Place) (p : Place) :
    p ∈ dedupeSpots spots ↔ (p.place_id, p) ∈ reduceById spots := by
  rw [dedupeSpots, (objectValues_perm (reduceById spots)).mem_iff, List.mem_map]
  constructor
  · rintro ⟨kv, hkv, rfl⟩
    have := ((reduceById_spec spots).2.1 kv hkv).1
    rw [this]
    exact hkv
  · intro h
    exact ⟨_, h, rfl⟩

/-- An identifier of the input other than `"__proto__"` is the identifier of
exactly one deduplicated record. -/
theorem dedupeSpots_count_eq_one (spots : List Place) (x : String) (hx : x ≠ "__proto__")
    (hmem : x ∈ spots.map Place.place_id) :
    ((dedupeSpots spots).map Place.place_id).count x = 1 := by
  obtain ⟨h1, _, h3⟩ := reduceById_spec spots
  have hperm := dedupeSpots_ids_perm spots
  rw [hperm.count_eq]
  apply List.count_eq_one_of_mem h1
  obtain ⟨s, hs, rfl⟩ := List.mem_map.mp hmem
  exact h3 s hs hx

/-- C6: deduplication. For every list of per-sample result lists, the
aggregated output (the deduplication of their concatenation) has no two
entries with the same `place_id`; and when two sample results both contain a
place with identifier `"X"`, the output has exactly one entry with identifier
`"X"`. -/
theorem dedupeSpots_unique (samples : List (List Place)) :
    ((dedupeSpots samples.flatten).map Place.place_id).Nodup ∧
      ∀ (s₁ s₂ : List Place) (p q : Place), s₁ ∈ samples → s₂ ∈ samples → p ∈ s₁ → q ∈ s₂ →
        p.place_id = "X" → q.place_id = "X" →
        ((dedupeSpots samples.flatten).map Place.place_id).count "X" = 1 := by
  constructor
  · exact (dedupeSpots_ids_perm _).nodup_iff.mpr (reduceById_spec _).1
  · intro s₁ _ p _ hs₁ _ hp _ hpx _
    apply dedupeSpots_count_eq_one _ "X" (by decide)
    exact List.mem_map.mpr ⟨p, List.mem_flatten.mpr ⟨s₁, hs₁, hp⟩, hpx⟩

theorem dedupeSpots_unique_witness :
    [barePlace "X" "a", barePlace "Y" "b"] ∈
        [[barePlace "X" "a", barePlace "Y" "b"], [barePlace "Z" "c", barePlace "X" "a"]] ∧
      [barePlace "Z" "c", barePlace "X" "a"] ∈
        [[barePlace "X" "a", barePlace "Y" "b"], [barePlace "Z" "c", barePlace "X" "a"]] ∧
      ((dedupeSpots ([[barePlace "X" "a", barePlace "Y" "b"],
        [barePlace "Z" "c", barePlace "X" "a"]]).flatten).map Place.place_id).count "X" = 1 :=
  ⟨by simp, by simp,
    (dedupeSpots_unique [[barePlace "X" "a", barePlace "Y" "b"],
      [barePlace "Z" "c", barePlace "X" "a"]]).2 _ _ (barePlace "X" "a") (barePlace "X" "a")
      (List.mem_cons_self _ _) (List.mem_cons_of_mem _ (List.mem_cons_self _ _))
      (List.mem_cons_self _ _) (List.mem_cons_of_mem _ (List.mem_cons_self _ _)) rfl rfl⟩

/-- C7 (counterexample): of two records with the same `place_id` that differ
in their name, the deduplication returns the second, not the first. -/
theorem dedupeSpots_returns_later_record :
    dedupeSpots [barePlace "X" "first", barePlace "X" "second"] = [barePlace "X" "second"] ∧
      [barePlace "X" "first", barePlace "X" "second"].find? (fun s => s.place_id == "X") =
        some (barePlace "X" "first") ∧
      barePlace "X" "first" ≠ barePlace "X" "second" := by
  decide

/-- C7 (as amended): deduplication keeps the last occurrence. For every
concatenated result list, each record that the deduplication returns is the
last record of the list with its `place_id`, and every `place_id` of the list
other than `"__proto__"` has its last record returned. -/
theorem dedupeSpots_last_occurrence (spots : List Place) :
    (∀ p ∈ dedupeSpots spots,
        spots.reverse.find? (fun s => s.place_id == p.place_id) = some p) ∧
      (∀ s ∈ spots, s.place_id ≠ "__proto__" →
        ∃ p ∈ dedupeSpots spots,
          spots.reverse.find? (fun r => r.place_id == s.place_id) = some p) := by
  obtain ⟨_, h2, h3⟩ := reduceById_spec spots
  constructor
  · intro p hp
    exact (h2 _ ((mem_dedupeSpots spots p).mp hp)).2.2
  · intro s hs hne
    obtain ⟨kv, hkv, hk⟩ := List.mem_map.mp (h3 s hs hne)
    obtain ⟨a, _, c⟩ := h2 kv hkv
    refine ⟨kv.2, (mem_dedupeSpots spots kv.2).mpr (by rw [a]; exact hkv), ?_⟩
    rw [← hk]
    exact c

theorem dedupeSpots_last_occurrence_witness :
    barePlace "X" "second" ∈ dedupeSpots [barePlace "X" "first", barePlace "X" "second"] ∧
      [barePlace "X" "first", barePlace "X" "second"].reverse.find?
        (fun s => s.place_id == (barePlace "X" "second").place_id) =
          some (barePlace "X" "second") :=
  ⟨by decide,
    (dedupeSpots_last_occurrence [barePlace "X" "first", barePlace "X" "second"]).1 _
      (by decide)⟩

/-! ## The nearby-search loop -/

/-- When every call succeeds the loop returns the concatenation of the result
lists, a response without `results` adding nothing. -/
theorem collectSpots_ok (search : NearbySearch) (filters : RouteFilters)
    (results : Coordinate → Option (List Place)) (points : List Coordinate) :
    ∀ spots : List Place,
      (∀ point ∈ points, search (nearbyRequest filters point) = Except.ok (results point)) →
      collectSpots search filters points spots =
        Except.ok (spots ++ (points.map (fun point => (results point).getD [])).flatten) := by
  induction points with
  | nil => intro spots _; simp [collectSpots]
  | cons point points ih =>
    intro spots h
    have h0 := h point (List.mem_cons_self _ _)
    have hrest := fun q hq => h q (List.mem_cons_of_mem _ hq)
    rw [collectSpots, h0]
    cases hres : results point with
    | none => simp [hres, ih spots hrest]
    | some r => simp [hres, ih (spots ++ r) hrest]

/-- A call that throws makes the loop throw, with the error of a call that threw. -/
theorem collectSpots_error (search : NearbySearch) (filters : RouteFilters)
    (points : List Coordinate) :
    ∀ spots : List Place,
      (∃ point ∈ points, ∃ e, search (nearbyRequest filters point) = Except.error e) →
      ∃ point ∈ points, ∃ e, search (nearbyRequest filters point) = Except.error e ∧
        collectSpots search filters points spots = Except.error e := by
  induction points with
  | nil => intro spots h; simp at h
  | cons point points ih =>
    intro spots h
    obtain ⟨q, hq, e, he⟩ := h
    rw [collectSpots]
    cases hs : search (nearbyRequest filters point) with
    | error e' => exact ⟨point, List.mem_cons_self _ _, e', hs, rfl⟩
    | ok data =>
      have hq' : q ∈ points := by
        rcases List.mem_cons.mp hq with h1 | h1
        · subst h1
          rw [hs] at he
          cases he
        · exact h1
      cases data with
      | none =>
        obtain ⟨r, hr, e', he', hc⟩ := ih spots ⟨q, hq', e, he⟩
        exact ⟨r, List.mem_cons_of_mem _ hr, e', he', hc⟩
      | some res =>
        obtain ⟨r, hr, e', he', hc⟩ := ih (spots ++ res) ⟨q, hq', e, he⟩
        exact ⟨r, List.mem_cons_of_mem _ hr, e', he', hc⟩

/-- C8 (counterexample): on a path with the two sample centres `(0, 0)` and
`(1, 1)`, when the call for `(0, 0)` succeeds and the call for `(1, 1)` throws,
`fetchFoodSpotsAlongRoute` throws that error and returns nothing. -/
theorem fetchFoodSpotsAlongRoute_one_failure :
    sampled sixteenPoints = [⟨0, 0⟩, ⟨1, 1⟩] ∧
      failingAt ⟨1, 1⟩ [barePlace "X" "a"] (nearbyRequest ⟨"", 1, false⟩ ⟨0, 0⟩) =
        Except.ok (some [barePlace "X" "a"]) ∧
      fetchFoodSpotsAlongRoute (failingAt ⟨1, 1⟩ [barePlace "X" "a"]) ⟨"", 1, false⟩
        sixteenPoints = Except.error "Network request failed" := by
  decide

/-- The loop throws the error of the first call that throws: the calls before
it complete and no later call is made. -/
theorem collectSpots_first_error (search : NearbySearch) (filters : RouteFilters)
    (before : List Coordinate) (point : Coordinate) (after : List Coordinate) (e : String) :
    ∀ spots : List Place,
      (∀ q ∈ before, ∃ data, search (nearbyRequest filters q) = Except.ok data) →
      search (nearbyRequest filters point) = Except.error e →
      collectSpots search filters (before ++ point :: after) spots = Except.error e := by
  induction before with
  | nil =>
    intro spots _ he
    rw [List.nil_append, collectSpots, he]
  | cons q before ih =>
    intro spots hok he
    obtain ⟨data, hq⟩ := hok q (List.mem_cons_self _ _)
    have hrest := fun r hr => hok r (List.mem_cons_of_mem _ hr)
    rw [List.cons_append, collectSpots, hq]
    cases data with
    | none => exact ih spots hrest he
    | some r => exact ih (spots ++ r) hrest he

/-- C8 (as amended): no per-sample failure isolation. If the nearby-search call
for a sampled point throws after the calls for the sampled points before it
completed, `fetchFoodSpotsAlongRoute` throws as a whole, with that error, also
when the calls for the later points would complete; so whenever a call for a
sampled point throws, it throws with the error of such a call. When every
call completes, it returns the deduplicated concatenation of the result lists,
a response without `results` being skipped. -/
theorem fetchFoodSpotsAlongRoute_failure_aborts (search : NearbySearch) (filters : RouteFilters)
    (path : List Coordinate) :
    (∀ (before : List Coordinate) (point : Coordinate) (after : List Coordinate) (e : String),
        sampled path = before ++ point :: after →
        (∀ q ∈ before, ∃ data, search (nearbyRequest filters q) = Except.ok data) →
        search (nearbyRequest filters point) = Except.error e →
        fetchFoodSpotsAlongRoute search filters path = Except.error e) ∧
      ((∃ point ∈ sampled path, ∃ e, search (nearbyRequest filters point) = Except.error e) →
        ∃ point ∈ sampled path, ∃ e, search (nearbyRequest filters point) = Except.error e ∧
          fetchFoodSpotsAlongRoute search filters path = Except.error e) ∧
      (∀ results : Coordinate → Option (List Place),
        (∀ point ∈ sampled path,
          search (nearbyRequest filters point) = Except.ok (results point)) →
        fetchFoodSpotsAlongRoute search filters path =
          Except.ok (dedupeSpots
            ((sampled path).map (fun point => (results point).getD [])).flatten)) := by
  refine ⟨?_, ?_, ?_⟩
  · intro before point after e hsplit hok he
    rw [fetchFoodSpotsAlongRoute, hsplit,
      collectSpots_first_error search filters before point after e [] hok he]
  · intro h
    obtain ⟨point, hp, e, he, hc⟩ := collectSpots_error search filters (sampled path) [] h
    exact ⟨point, hp, e, he, by rw [fetchFoodSpotsAlongRoute, hc]⟩
  · intro results h
    rw [fetchFoodSpotsAlongRoute, collectSpots_ok search filters results (sampled path) [] h]
    simp

theorem fetchFoodSpotsAlongRoute_failure_aborts_witness :
    (sampled sixteenPoints = [⟨0, 0⟩] ++ (⟨1, 1⟩ : Coordinate) :: [] ∧
      (∀ q ∈ [(⟨0, 0⟩ : Coordinate)], ∃ data,
        failingAt ⟨1, 1⟩ [barePlace "Y" "b"] (nearbyRequest ⟨"tacos", 2, true⟩ q) =
          Except.ok data) ∧
      failingAt ⟨1, 1⟩ [barePlace "Y" "b"] (nearbyRequest ⟨"tacos", 2, true⟩ ⟨1, 1⟩) =
        Except.error "Network request failed") ∧
      fetchFoodSpotsAlongRoute (failingAt ⟨1, 1⟩ [barePlace "Y" "b"]) ⟨"tacos", 2, true⟩
        sixteenPoints = Except.error "Network request failed" :=
  have h1 : sampled sixteenPoints = [⟨0, 0⟩] ++ (⟨1, 1⟩ : Coordinate) :: [] := by decide
  have h2 : ∀ q ∈ [(⟨0, 0⟩ : Coordinate)], ∃ data,
      failingAt ⟨1, 1⟩ [barePlace "Y" "b"] (nearbyRequest ⟨"tacos", 2, true⟩ q) =
        Except.ok data := by
    intro q hq
    rw [List.mem_singleton] at hq
    subst hq
    exact ⟨some [barePlace "Y" "b"], by decide⟩
  have h3 : failingAt ⟨1, 1⟩ [barePlace "Y" "b"] (nearbyRequest ⟨"tacos", 2, true⟩ ⟨1, 1⟩) =
      Except.error "Network request failed" := by decide
  ⟨⟨h1, h2, h3⟩,
    (fetchFoodSpotsAlongRoute_failure_aborts _ _ _).1 [⟨0, 0⟩] ⟨1, 1⟩ [] _ h1 h2 h3⟩

/-! ## `fetchRoute` -/

/-- C9 (counterexample): when the directions response has zero routes,
`fetchRoute` completes normally: nothing is thrown and the state is left as it
was. -/
theorem fetchRoute_zero_routes_example :
    fetchRoute (fun _ => Except.ok []) (failingAt ⟨1, 1⟩ []) ⟨"", 1, false⟩ ⟨0, 0⟩ ⟨1, 1⟩
        ⟨[⟨2, 2⟩], [barePlace "X" "a"]⟩ =
      { state := ⟨[⟨2, 2⟩], [barePlace "X" "a"]⟩, thrown := none } := by
  decide

/-- C9 (as amended): when the directions response contains zero routes,
`fetchRoute` completes normally without throwing and leaves the route
coordinates and food spots unchanged. -/
theorem fetchRoute_zero_routes (directions : Directions) (search : NearbySearch)
    (filters : RouteFilters) (origin destination : Coordinate) (st : RouteState)
    (h : directions { origin := origin, destination := destination } = Except.ok []) :
    fetchRoute directions search filters origin destination st =
      { state := st, thrown := none } := by
  rw [fetchRoute, h]

theorem fetchRoute_zero_routes_witness :
    (fun _ => Except.ok [] : Directions) { origin := ⟨3, 4⟩, destination := ⟨5, 6⟩ } =
        Except.ok [] ∧
      fetchRoute (fun _ => Except.ok []) (fun _ => Except.ok none) ⟨"pizza", 1, true⟩
          ⟨3, 4⟩ ⟨5, 6⟩ ⟨[], []⟩ =
        { state := ⟨[], []⟩, thrown := none } :=
  ⟨rfl, fetchRoute_zero_routes (fun _ => Except.ok []) (fun _ => Except.ok none)
    ⟨"pizza", 1, true⟩ ⟨3, 4⟩ ⟨5, 6⟩ ⟨[], []⟩ rfl⟩

/-! ## `filteredPlaces` -/

theorem mem_filteredPlaces (dist : ℚ → ℚ → ℚ → ℚ → ℚ) (filters : NearbyFilters)
    (location : Option Coordinate) (places : List Place) (p : Place) :
    p ∈ filteredPlaces dist filters location places ↔
      p ∈ places ∧ keepPlace dist filters location p = true := by
  rw [filteredPlaces, List.mem_insertionSort, List.mem_filter]

/-- C10: open-now filter. For every result list and every criteria with
`openNow` set, no result of `filteredPlaces` has `opening_hours.open_now`
false or absent. -/
theorem filteredPlaces_openNow (dist : ℚ → ℚ → ℚ → ℚ → ℚ) (filters : NearbyFilters)
    (location : Option Coordinate) (places : List Place) (h : filters.openNow = true) :
    ∀ p ∈ filteredPlaces dist filters location places, p.open_now = some true := by
  intro p hp
  have hk := ((mem_filteredPlaces dist filters location places p).mp hp).2
  by_contra hne
  simp [keepPlace, h, hne] at hk

theorem filteredPlaces_openNow_witness :
    ({ openNow := true, maxPrice := 4, maxDistance := 5 } : NearbyFilters).openNow = true ∧
      ∀ p ∈ filteredPlaces (fun _ _ _ _ => 0) { openNow := true, maxPrice := 4, maxDistance := 5 }
          (some ⟨0, 0⟩)
          [{ barePlace "A" "closed" with open_now := some false },
            { barePlace "B" "open" with open_now := some true },
            barePlace "C" "unknown"],
        p.open_now = some true :=
  ⟨rfl, filteredPlaces_openNow _ _ _ _ rfl⟩

/-- The filter callback keeps a place exactly when none of its three `if`
conditions holds. -/
theorem keepPlace_eq (dist : ℚ → ℚ → ℚ → ℚ → ℚ) (filters : NearbyFilters)
    (location : Option Coordinate) (place : Place) :
    keepPlace dist filters location place =
      !(excludedByOpenNow filters place || excludedByPrice filters place ||
        excludedByDistance dist filters location place) := by
  unfold keepPlace excludedByOpenNow excludedByPrice excludedByDistance
  by_cases h1 : filters.openNow = true ∧ place.open_now ≠ some true
  · simp [h1]
  · by_cases h2 : filters.maxPrice ≠ 0 ∧ place.price_level.getD 0 ≠ 0 ∧
        place.price_level.getD 0 > filters.maxPrice
    · simp [h1, h2]
    · rw [if_neg h1, if_neg h2, if_neg h1, if_neg h2]
      cases location <;> cases place.location <;> simp

/-- C11: price filter. For every result list and every `maxPrice` in 1..4, no
result of `filteredPlaces` has a price tier greater than `maxPrice`; and a
result with no price tier is never excluded on account of price: it is in the
output whenever the open-now and distance conditions do not exclude it. -/
theorem filteredPlaces_price (dist : ℚ → ℚ → ℚ → ℚ → ℚ) (filters : NearbyFilters)
    (location : Option Coordinate) (places : List Place)
    (h1 : 1 ≤ filters.maxPrice) (_h4 : filters.maxPrice ≤ 4) :
    (∀ p ∈ filteredPlaces dist filters location places, ∀ price,
        p.price_level = some price → price ≤ filters.maxPrice) ∧
      (∀ p ∈ places, p.price_level = none →
        excludedByPrice filters p = false ∧
        (excludedByOpenNow filters p = false →
          excludedByDistance dist filters location p = false →
          p ∈ filteredPlaces dist filters location places)) := by
  constructor
  · intro p hp price hprice
    have hk := ((mem_filteredPlaces dist filters location places p).mp hp).2
    rw [keepPlace_eq] at hk
    have hx : excludedByPrice filters p = false := by
      cases hb : excludedByPrice filters p
      · rfl
      · rw [hb] at hk
        simp at hk
    by_contra hgt
    have : excludedByPrice filters p = true := by
      unfold excludedByPrice
      rw [hprice]
      simp only [Option.getD_some]
      rw [if_pos ⟨by omega, by omega, by omega⟩]
    rw [this] at hx
    cases hx
  · intro p hp hnone
    have hx : excludedByPrice filters p = false := by
      simp [excludedByPrice, hnone]
    refine ⟨hx, fun ho hd => ?_⟩
    rw [mem_filteredPlaces, keepPlace_eq, ho, hx, hd]
    exact ⟨hp, rfl⟩

theorem filteredPlaces_price_witness :
    (1 ≤ ({ openNow := false, maxPrice := 2, maxDistance := 5 } : NearbyFilters).maxPrice ∧
      ({ openNow := false, maxPrice := 2, maxDistance := 5 } : NearbyFilters).maxPrice ≤ 4) ∧
      ∀ p ∈ filteredPlaces (fun _ _ _ _ => 1) { openNow := false, maxPrice := 2, maxDistance := 5 }
          (some ⟨0, 0⟩)
          [{ barePlace "A" "dear" with price_level := some 3 },
            { barePlace "B" "cheap" with price_level := some 1 },
            barePlace "C" "unpriced"],
        ∀ price, p.price_level = some price → price ≤ 2 :=
  ⟨⟨by decide, by decide⟩,
    (filteredPlaces_price (fun _ _ _ _ => 1) { openNow := false, maxPrice := 2, maxDistance := 5 }
      (some ⟨0, 0⟩) _ (by decide) (by decide)).1⟩

/-! ## `getDistanceInMiles` -/

theorem toRad_sub (x y : ℝ) : toRad (x - y) = toRad x - toRad y := by
  unfold toRad
  ring

/-- The cosine of a latitude between -90 and 90 degrees is not negative. -/
theorem cos_toRad_nonneg (lat : ℝ) (hlo : -90 ≤ lat) (hhi : lat ≤ 90) :
    0 ≤ Real.cos (toRad lat) := by
  apply Real.cos_nonneg_of_mem_Icc
  have hpi := Real.pi_pos
  unfold toRad
  constructor <;> nlinarith

/-- For latitudes between -90 and 90 degrees the constant `a` lies in `[0, 1]`,
so both square roots of `getDistanceInMiles` have a non-negative argument. -/
theorem haversineTerm_mem (lat1 lon1 lat2 lon2 : ℝ) (h1 : -90 ≤ lat1) (h2 : lat1 ≤ 90)
    (h3 : -90 ≤ lat2) (h4 : lat2 ≤ 90) :
    0 ≤ haversineTerm lat1 lon1 lat2 lon2 ∧ haversineTerm lat1 lon1 lat2 lon2 ≤ 1 := by
  have c1 := cos_toRad_nonneg lat1 h1 h2
  have c2 := cos_toRad_nonneg lat2 h3 h4
  have hp : 0 ≤ Real.cos (toRad lat1) * Real.cos (toRad lat2) := mul_nonneg c1 c2
  have s1 : 0 ≤ Real.sin (toRad (lat2 - lat1) / 2) * Real.sin (toRad (lat2 - lat1) / 2) :=
    mul_self_nonneg _
  have s2 : 0 ≤ Real.sin (toRad (lon2 - lon1) / 2) * Real.sin (toRad (lon2 - lon1) / 2) :=
    mul_self_nonneg _
  have s2' : Real.sin (toRad (lon2 - lon1) / 2) * Real.sin (toRad (lon2 - lon1) / 2) ≤ 1 := by
    have := Real.sin_sq_le_one (toRad (lon2 - lon1) / 2)
    nlinarith
  have hhalf : Real.sin (toRad (lat2 - lat1) / 2) * Real.sin (toRad (lat2 - lat1) / 2) =
      1 / 2 - Real.cos (toRad lat2 - toRad lat1) / 2 := by
    have := Real.sin_sq_eq_half_sub (toRad (lat2 - lat1) / 2)
    rw [show 2 * (toRad (lat2 - lat1) / 2) = toRad lat2 - toRad lat1 by rw [toRad_sub]; ring] at this
    rw [← this]
    ring
  have hsub := Real.cos_sub (toRad lat2) (toRad lat1)
  have hadd := Real.cos_add (toRad lat2) (toRad lat1)
  have hle := Real.cos_le_one (toRad lat2 + toRad lat1)
  unfold haversineTerm
  simp only
  constructor
  · have := mul_nonneg hp s2
    nlinarith
  · have hmul : Real.cos (toRad lat1) * Real.cos (toRad lat2) *
        (Real.sin (toRad (lon2 - lon1) / 2) * Real.sin (toRad (lon2 - lon1) / 2)) ≤
        Real.cos (toRad lat1) * Real.cos (toRad lat2) := by
      nlinarith
    nlinarith

/-- On the square roots of `a` and `1 - a`, for `a` in `[0, 1]`, the two-argument
arctangent is the arcsine of the first. -/
theorem atan2_sqrt (a : ℝ) (h0 : 0 ≤ a) (h1 : a ≤ 1) :
    atan2 (Real.sqrt a) (Real.sqrt (1 - a)) = Real.arcsin (Real.sqrt a) := by
  have habs : Complex.abs ⟨Real.sqrt (1 - a), Real.sqrt a⟩ = 1 := by
    rw [Complex.abs_apply, Complex.normSq_mk, Real.mul_self_sqrt (by linarith),
      Real.mul_self_sqrt h0]
    simp
  unfold atan2 Complex.arg
  rw [if_pos (Real.sqrt_nonneg _), habs]
  simp

theorem toFixed1_zero : toFixed1 0 = 0 := by
  unfold toFixed1
  norm_num

/-- C17: the distance of a point to itself is zero: for every coordinate,
`getDistanceInMiles(lat, lon, lat, lon)` is `0.0`. -/
theorem getDistanceInMiles_self (lat lon : ℝ) : getDistanceInMiles lat lon lat lon = 0 := by
  have ha : haversineTerm lat lon lat lon = 0 := by
    unfold haversineTerm toRad
    simp
  have hc : atan2 (Real.sqrt 0) (Real.sqrt (1 - 0)) = 0 := by
    rw [atan2_sqrt 0 (le_refl _) (by norm_num)]
    simp
  unfold getDistanceInMiles distanceInKm
  simp only [ha, hc]
  rw [show (6371 : ℝ) * (2 * 0) * 0.621371 = 0 by norm_num]
  exact toFixed1_zero

theorem haversineTerm_symm (lat1 lon1 lat2 lon2 : ℝ) :
    haversineTerm lat1 lon1 lat2 lon2 = haversineTerm lat2 lon2 lat1 lon1 := by
  unfold haversineTerm
  simp only
  have e1 : toRad (lat1 - lat2) / 2 = -(toRad (lat2 - lat1) / 2) := by unfold toRad; ring
  have e2 : toRad (lon1 - lon2) / 2 = -(toRad (lon2 - lon1) / 2) := by unfold toRad; ring
  rw [e1, e2, Real.sin_neg, Real.sin_neg]
  ring

/-- C18: symmetry of the distance: for all coordinates,
`getDistanceInMiles(a, b)` equals `getDistanceInMiles(b, a)`. -/
theorem getDistanceInMiles_symm (lat1 lon1 lat2 lon2 : ℝ) :
    getDistanceInMiles lat1 lon1 lat2 lon2 = getDistanceInMiles lat2 lon2 lat1 lon1 := by
  unfold getDistanceInMiles distanceInKm
  rw [haversineTerm_symm]

/-- For latitudes between -90 and 90 degrees the result is the rounded product
of the radius, twice the arcsine of the square root of `a`, and the factor
from kilometres to miles. -/
theorem getDistanceInMiles_eq_arcsin (lat1 lon1 lat2 lon2 : ℝ) (h1 : -90 ≤ lat1)
    (h2 : lat1 ≤ 90) (h3 : -90 ≤ lat2) (h4 : lat2 ≤ 90) :
    getDistanceInMiles lat1 lon1 lat2 lon2 =
      toFixed1 (6371 * (2 * Real.arcsin (Real.sqrt (haversineTerm lat1 lon1 lat2 lon2))) *
        0.621371) := by
  obtain ⟨a0, a1⟩ := haversineTerm_mem lat1 lon1 lat2 lon2 h1 h2 h3 h4
  unfold getDistanceInMiles distanceInKm
  simp only
  rw [atan2_sqrt _ a0 a1]

/-- C19: `getDistanceInMiles` computes the haversine great-circle distance, over
real arithmetic. For latitudes between -90 and 90 degrees its result is
`2 * 6371 * arcsin (sqrt h) * 0.621371` rounded to one decimal place: the
multiple of `1 / 10` given by the floor of ten times that distance plus one
half, which is within `0.05` of the distance, itself not negative. -/
theorem getDistanceInMiles_haversine (lat1 lon1 lat2 lon2 : ℝ) (h1 : -90 ≤ lat1)
    (h2 : lat1 ≤ 90) (h3 : -90 ≤ lat2) (h4 : lat2 ≤ 90) :
    getDistanceInMiles lat1 lon1 lat2 lon2 =
        ((⌊specHaversineMiles lat1 lon1 lat2 lon2 * 10 + 1 / 2⌋ : ℤ) : ℚ) / 10 ∧
      0 ≤ specHaversineMiles lat1 lon1 lat2 lon2 ∧
      |((getDistanceInMiles lat1 lon1 lat2 lon2 : ℚ) : ℝ) -
        specHaversineMiles lat1 lon1 lat2 lon2| ≤ 1 / 20 := by
  have hterm : haversineTerm lat1 lon1 lat2 lon2 =
      Real.sin ((lat2 - lat1) * Real.pi / 180 / 2) ^ 2 +
        Real.cos (lat1 * Real.pi / 180) * Real.cos (lat2 * Real.pi / 180) *
          Real.sin ((lon2 - lon1) * Real.pi / 180 / 2) ^ 2 := by
    unfold haversineTerm toRad
    ring
  have hspec : 6371 * (2 * Real.arcsin (Real.sqrt (haversineTerm lat1 lon1 lat2 lon2))) *
      0.621371 = specHaversineMiles lat1 lon1 lat2 lon2 := by
    unfold specHaversineMiles
    rw [hterm]
    ring
  have hnonneg : 0 ≤ specHaversineMiles lat1 lon1 lat2 lon2 := by
    have := Real.arcsin_nonneg.mpr
      (Real.sqrt_nonneg (Real.sin ((lat2 - lat1) * Real.pi / 180 / 2) ^ 2 +
        Real.cos (lat1 * Real.pi / 180) * Real.cos (lat2 * Real.pi / 180) *
          Real.sin ((lon2 - lon1) * Real.pi / 180 / 2) ^ 2))
    unfold specHaversineMiles
    positivity
  have hval : getDistanceInMiles lat1 lon1 lat2 lon2 =
      ((⌊specHaversineMiles lat1 lon1 lat2 lon2 * 10 + 1 / 2⌋ : ℤ) : ℚ) / 10 := by
    rw [getDistanceInMiles_eq_arcsin lat1 lon1 lat2 lon2 h1 h2 h3 h4, hspec]
    unfold toFixed1
    rw [if_neg (not_lt.mpr hnonneg)]
  refine ⟨hval, hnonneg, ?_⟩
  rw [hval]
  have f1 := Int.floor_le (specHaversineMiles lat1 lon1 lat2 lon2 * 10 + 1 / 2)
  have f2 := Int.lt_floor_add_one (specHaversineMiles lat1 lon1 lat2 lon2 * 10 + 1 / 2)
  push_cast
  rw [abs_le]
  constructor <;> linarith

/-- One degree of latitude along a meridian is 69.1 miles. -/
theorem getDistanceInMiles_one_degree : getDistanceInMiles 0 0 1 0 = 691 / 10 := by
  have hpi := Real.pi_pos
  have hlo := Real.pi_gt_d6
  have hhi := Real.pi_lt_d6
  have hs : 0 ≤ Real.sin (Real.pi / 360) :=
    Real.sin_nonneg_of_nonneg_of_le_pi (by linarith) (by linarith)
  have hsqrt : Real.sqrt (Real.sin (Real.pi / 360) ^ 2) = Real.sin (Real.pi / 360) :=
    Real.sqrt_sq hs
  have harc : Real.arcsin (Real.sin (Real.pi / 360)) = Real.pi / 360 :=
    Real.arcsin_sin (by linarith) (by linarith)
  rw [getDistanceInMiles_eq_arcsin 0 0 1 0 (by norm_num) (by norm_num) (by norm_num)
    (by norm_num)]
  have harg : haversineTerm 0 0 1 0 = Real.sin (Real.pi / 360) ^ 2 := by
    unfold haversineTerm toRad
    simp only
    rw [show ((1 : ℝ) - 0) * Real.pi / 180 / 2 = Real.pi / 360 by ring,
      show ((0 : ℝ) - 0) * Real.pi / 180 / 2 = 0 by ring, Real.sin_zero]
    ring
  rw [harg, hsqrt, harc]
  unfold toFixed1
  have hpos : ¬ (6371 * (2 * (Real.pi / 360)) * 0.621371 < 0) := by
    norm_num
    positivity
  rw [if_neg hpos]
  have hfloor : ⌊6371 * (2 * (Real.pi / 360)) * 0.621371 * 10 + 1 / 2⌋ = 691 := by
    rw [Int.floor_eq_iff]
    constructor
    · norm_num
      linarith
    · norm_num
      linarith
  rw [hfloor]
  norm_num

theorem getDistanceInMiles_haversine_witness :
    ((-90 : ℝ) ≤ 0 ∧ (0 : ℝ) ≤ 90 ∧ (-90 : ℝ) ≤ 1 ∧ (1 : ℝ) ≤ 90) ∧
      getDistanceInMiles 0 0 1 0 = 691 / 10 ∧
      getDistanceInMiles 0 0 1 0 =
        ((⌊specHaversineMiles 0 0 1 0 * 10 + 1 / 2⌋ : ℤ) : ℚ) / 10 ∧
      |((getDistanceInMiles 0 0 1 0 : ℚ) : ℝ) - specHaversineMiles 0 0 1 0| ≤ 1 / 20 :=
  have h := getDistanceInMiles_haversine 0 0 1 0 (by norm_num) (by norm_num) (by norm_num)
    (by norm_num)
  ⟨⟨by norm_num, by norm_num, by norm_num, by norm_num⟩, getDistanceInMiles_one_degree,
    h.1, h.2.2⟩

/-- The distance condition of the filter callback, for a `maxDistance` other
than `0`, which the guard `filters.maxDistance &&` lets through. -/
theorem excludedByDistance_iff (dist : ℚ → ℚ → ℚ → ℚ → ℚ) (filters : NearbyFilters)
    (loc spot : Coordinate) (place : Place) (hspot : place.location = some spot)
    (hne : filters.maxDistance ≠ 0) :
    excludedByDistance dist filters (some loc) place = true ↔
      dist loc.latitude loc.longitude spot.latitude spot.longitude > filters.maxDistance := by
  simp [excludedByDistance, hspot, hne]

/-- The distance condition excludes nothing without a reference location or
without a coordinate of the place. -/
theorem excludedByDistance_of_missing (dist : ℚ → ℚ → ℚ → ℚ → ℚ) (filters : NearbyFilters)
    (location : Option Coordinate) (place : Place)
    (h : location = none ∨ place.location = none) :
    excludedByDistance dist filters location place = false := by
  rcases h with h | h
  · simp [excludedByDistance, h]
  · cases location <;> simp [excludedByDistance, h]

theorem pressNearby_mem (filters : NearbyFilters) (press : NearbyPress)
    (h : filters.maxPrice ∈ ([1, 2, 3, 4] : List Nat) ∧
      filters.maxDistance ∈ ([1 / 2, 1, 2, 5, 10] : List ℚ)) :
    (pressNearby filters press).maxPrice ∈ ([1, 2, 3, 4] : List Nat) ∧
      (pressNearby filters press).maxDistance ∈ ([1 / 2, 1, 2, 5, 10] : List ℚ) := by
  cases press with
  | openNow => exact h
  | price i => exact ⟨List.get_mem _ _ _, h.2⟩
  | distance i => exact ⟨h.1, List.get_mem _ _ _⟩

theorem foldl_pressNearby_mem (presses : List NearbyPress) :
    ∀ filters : NearbyFilters,
      (filters.maxPrice ∈ ([1, 2, 3, 4] : List Nat) ∧
        filters.maxDistance ∈ ([1 / 2, 1, 2, 5, 10] : List ℚ)) →
      (presses.foldl pressNearby filters).maxPrice ∈ ([1, 2, 3, 4] : List Nat) ∧
        (presses.foldl pressNearby filters).maxDistance ∈ ([1 / 2, 1, 2, 5, 10] : List ℚ) := by
  induction presses with
  | nil => intro filters h; exact h
  | cons press presses ih =>
    intro filters h
    exact ih _ (pressNearby_mem filters press h)

/-- Every state `filters` the nearby screen can hold has its `maxPrice` among
1, 2, 3, 4 and its `maxDistance` among 0.5, 1, 2, 5, 10. -/
theorem nearbyFiltersAfter_mem (presses : List NearbyPress) :
    (nearbyFiltersAfter presses).maxPrice ∈ ([1, 2, 3, 4] : List Nat) ∧
      (nearbyFiltersAfter presses).maxDistance ∈ ([1 / 2, 1, 2, 5, 10] : List ℚ) := by
  apply foldl_pressNearby_mem
  constructor
  · simp [defaultFilters]
  · simp [defaultFilters]

theorem nearbyFiltersAfter_maxDistance_ne_zero (presses : List NearbyPress) :
    (nearbyFiltersAfter presses).maxDistance ≠ 0 := by
  have h := (nearbyFiltersAfter_mem presses).2
  simp only [List.mem_cons, List.mem_singleton, List.not_mem_nil, or_false] at h
  rcases h with h | h | h | h | h <;> rw [h] <;> norm_num

/-- C12: distance filter. In every state `filters` the nearby screen can hold
(the initial one, or the one after any presses of the filter buttons), and for
every distance function: when a reference location is present, a result with
a coordinate is excluded by the distance condition exactly when the distance
from the reference to the result's coordinate is greater than `maxDistance`;
when no reference location is present, or the result has no coordinate, the
distance condition excludes nothing. A result is in the output exactly when
it is in the input and none of the three conditions excludes it. -/
theorem filteredPlaces_distance (dist : ℚ → ℚ → ℚ → ℚ → ℚ) (presses : List NearbyPress)
    (location : Option Coordinate) (places : List Place) (place : Place) :
    (∀ loc spot, location = some loc → place.location = some spot →
        (excludedByDistance dist (nearbyFiltersAfter presses) location place = true ↔
          dist loc.latitude loc.longitude spot.latitude spot.longitude >
            (nearbyFiltersAfter presses).maxDistance)) ∧
      ((location = none ∨ place.location = none) →
        excludedByDistance dist (nearbyFiltersAfter presses) location place = false) ∧
      (place ∈ filteredPlaces dist (nearbyFiltersAfter presses) location places ↔
        place ∈ places ∧ excludedByOpenNow (nearbyFiltersAfter presses) place = false ∧
          excludedByPrice (nearbyFiltersAfter presses) place = false ∧
          excludedByDistance dist (nearbyFiltersAfter presses) location place = false) := by
  refine ⟨?_, excludedByDistance_of_missing dist _ location place, ?_⟩
  · intro loc spot hloc hspot
    rw [hloc]
    exact excludedByDistance_iff dist _ loc spot place hspot
      (nearbyFiltersAfter_maxDistance_ne_zero presses)
  · rw [mem_filteredPlaces, keepPlace_eq]
    simp [Bool.or_eq_false_iff, and_assoc]

theorem filteredPlaces_distance_witness :
    ((some ⟨0, 0⟩ : Option Coordinate) = some ⟨0, 0⟩ ∧
      ({ barePlace "N" "north" with location := some ⟨1, 0⟩ } : Place).location =
        some ⟨1, 0⟩) ∧
      (nearbyFiltersAfter [NearbyPress.distance 0]).maxDistance = 1 / 2 ∧
      (fun (_ _ lat _ : ℚ) => 69 * lat) 0 0 1 0 >
        (nearbyFiltersAfter [NearbyPress.distance 0]).maxDistance ∧
      excludedByDistance (fun _ _ lat _ => 69 * lat)
        (nearbyFiltersAfter [NearbyPress.distance 0]) (some ⟨0, 0⟩)
        { barePlace "N" "north" with location := some ⟨1, 0⟩ } = true :=
  have hmax : (nearbyFiltersAfter [NearbyPress.distance 0]).maxDistance = 1 / 2 := by
    simp [nearbyFiltersAfter, pressNearby, defaultFilters]
  have hgt : (fun (_ _ lat _ : ℚ) => 69 * lat) 0 0 1 0 >
      (nearbyFiltersAfter [NearbyPress.distance 0]).maxDistance := by
    rw [hmax]
    norm_num
  ⟨⟨rfl, rfl⟩, hmax, hgt,
    ((filteredPlaces_distance (fun _ _ lat _ => 69 * lat) [NearbyPress.distance 0]
      (some ⟨0, 0⟩) [] { barePlace "N" "north" with location := some ⟨1, 0⟩ }).1
      ⟨0, 0⟩ ⟨1, 0⟩ rfl rfl).mpr hgt⟩

/-! ## The ranking of `filteredPlaces` -/

/-- When the sort callback puts `a` before `b` or leaves them: `a` matches the
target price and `b` does not, or they agree on that and `a` is rated at least
as high. -/
theorem comparePlaces_le_iff (filters : NearbyFilters) (a b : Place) :
    comparePlaces filters a b ≤ 0 ↔
      (a.price_level.getD 0 = filters.maxPrice ∧ b.price_level.getD 0 ≠ filters.maxPrice) ∨
        ((a.price_level.getD 0 = filters.maxPrice ↔ b.price_level.getD 0 = filters.maxPrice) ∧
          b.rating.getD 0 ≤ a.rating.getD 0) := by
  unfold comparePlaces
  simp only
  by_cases ha : a.price_level.getD 0 = filters.maxPrice <;>
    by_cases hb : b.price_level.getD 0 = filters.maxPrice <;>
    simp [ha, hb]

theorem comparePlaces_total (filters : NearbyFilters) (a b : Place) :
    comparePlaces filters a b ≤ 0 ∨ comparePlaces filters b a ≤ 0 := by
  rw [comparePlaces_le_iff, comparePlaces_le_iff]
  by_cases ha : a.price_level.getD 0 = filters.maxPrice <;>
    by_cases hb : b.price_level.getD 0 = filters.maxPrice <;>
    simp [ha, hb, le_total]

theorem comparePlaces_trans (filters : NearbyFilters) (a b c : Place)
    (hab : comparePlaces filters a b ≤ 0) (hbc : comparePlaces filters b c ≤ 0) :
    comparePlaces filters a c ≤ 0 := by
  rw [comparePlaces_le_iff] at hab hbc ⊢
  by_cases ha : a.price_level.getD 0 = filters.maxPrice <;>
    by_cases hb : b.price_level.getD 0 = filters.maxPrice <;>
    by_cases hc : c.price_level.getD 0 = filters.maxPrice <;>
    simp [ha, hb, hc] at hab hbc ⊢ <;> linarith

/-- The output of `filteredPlaces` is sorted by the sort callback. -/
theorem filteredPlaces_sorted (dist : ℚ → ℚ → ℚ → ℚ → ℚ) (filters : NearbyFilters)
    (location : Option Coordinate) (places : List Place) :
    (filteredPlaces dist filters location places).Pairwise
      (fun a b => comparePlaces filters a b ≤ 0) := by
  haveI : IsTotal Place (fun a b => comparePlaces filters a b ≤ 0) :=
    ⟨comparePlaces_total filters⟩
  haveI : IsTrans Place (fun a b => comparePlaces filters a b ≤ 0) :=
    ⟨comparePlaces_trans filters⟩
  exact List.sorted_insertionSort _ _

/-- In the output, an earlier result never compares after a later one. -/
theorem filteredPlaces_rel (dist : ℚ → ℚ → ℚ → ℚ → ℚ) (filters : NearbyFilters)
    (location : Option Coordinate) (places : List Place) (i j : Nat) (a b : Place)
    (hij : i < j) (ha : (filteredPlaces dist filters location places)[i]? = some a)
    (hb : (filteredPlaces dist filters location places)[j]? = some b) :
    comparePlaces filters a b ≤ 0 := by
  have hs := List.pairwise_iff_getElem.mp (filteredPlaces_sorted dist filters location places)
  obtain ⟨hi, hai⟩ := List.getElem?_eq_some.mp ha
  obtain ⟨hj, hbj⟩ := List.getElem?_eq_some.mp hb
  have := hs i j hi hj hij
  rw [hai, hbj] at this
  exact this

/-- For a target price other than `0`, the price the sort callback reads,
`price_level || 0`, equals the target exactly when the price tier does. -/
theorem price_getD_eq_iff (filters : NearbyFilters) (h : filters.maxPrice ≠ 0) (p : Place) :
    p.price_level.getD 0 = filters.maxPrice ↔ p.price_level = some filters.maxPrice := by
  cases hp : p.price_level with
  | none => simp; exact fun h' => h h'.symm
  | some v => simp

/-- C13: price-match ranking. In the output of `filteredPlaces` every result
whose price tier equals `maxPrice` precedes every result whose price tier
differs from it, whatever the ratings: first with the price read as the sort
callback reads it (`price_level || 0`), then, for `maxPrice` other than `0`,
with the price tier itself. The list of a price-2 result rated 4.0 and a
price-4 result rated 3.0, with `maxPrice = 4`, yields the price-4 result first. -/
theorem filteredPlaces_priceMatch_first (dist : ℚ → ℚ → ℚ → ℚ → ℚ) (filters : NearbyFilters)
    (location : Option Coordinate) (places : List Place) :
    (∀ (i j : Nat) (a b : Place),
        (filteredPlaces dist filters location places)[i]? = some a →
        (filteredPlaces dist filters location places)[j]? = some b →
        a.price_level.getD 0 = filters.maxPrice → b.price_level.getD 0 ≠ filters.maxPrice →
        i < j) ∧
      (filters.maxPrice ≠ 0 → ∀ (i j : Nat) (a b : Place),
        (filteredPlaces dist filters location places)[i]? = some a →
        (filteredPlaces dist filters location places)[j]? = some b →
        a.price_level = some filters.maxPrice → b.price_level ≠ some filters.maxPrice →
        i < j) ∧
      filteredPlaces dist { openNow := false, maxPrice := 4, maxDistance := 5 } location
          [{ barePlace "A" "two" with price_level := some 2, rating := some 4 },
            { barePlace "B" "four" with price_level := some 4, rating := some 3 }] =
        [{ barePlace "B" "four" with price_level := some 4, rating := some 3 },
          { barePlace "A" "two" with price_level := some 2, rating := some 4 }] := by
  have key : ∀ (i j : Nat) (a b : Place),
      (filteredPlaces dist filters location places)[i]? = some a →
      (filteredPlaces dist filters location places)[j]? = some b →
      a.price_level.getD 0 = filters.maxPrice → b.price_level.getD 0 ≠ filters.maxPrice →
      i < j := by
    intro i j a b ha hb hma hmb
    by_contra hlt
    rcases Nat.lt_or_eq_of_le (Nat.le_of_not_lt hlt) with h | h
    · have := (comparePlaces_le_iff filters b a).mp
        (filteredPlaces_rel dist filters location places j i b a h hb ha)
      simp [hma, hmb] at this
    · subst h
      rw [ha] at hb
      cases hb
      exact hmb hma
  refine ⟨key, ?_, ?_⟩
  · intro hne i j a b ha hb hma hmb
    exact key i j a b ha hb ((price_getD_eq_iff filters hne a).mpr hma)
      (fun h => hmb ((price_getD_eq_iff filters hne b).mp h))
  · cases location <;>
      simp [filteredPlaces, keepPlace, barePlace, comparePlaces, List.insertionSort,
        List.orderedInsert]

theorem filteredPlaces_priceMatch_first_witness :
    (filteredPlaces distanceOf { openNow := false, maxPrice := 4, maxDistance := 5 } none
        [{ barePlace "A" "two" with price_level := some 2, rating := some 4 },
          { barePlace "B" "four" with price_level := some 4, rating := some 3 }])[0]? =
        some { barePlace "B" "four" with price_level := some 4, rating := some 3 } ∧
      (filteredPlaces distanceOf { openNow := false, maxPrice := 4, maxDistance := 5 } none
        [{ barePlace "A" "two" with price_level := some 2, rating := some 4 },
          { barePlace "B" "four" with price_level := some 4, rating := some 3 }])[1]? =
        some { barePlace "A" "two" with price_level := some 2, rating := some 4 } ∧
      0 < 1 :=
  have h := (filteredPlaces_priceMatch_first distanceOf
    { openNow := false, maxPrice := 4, maxDistance := 5 } none []).2.2
  have h0 : (filteredPlaces distanceOf { openNow := false, maxPrice := 4, maxDistance := 5 } none
      [{ barePlace "A" "two" with price_level := some 2, rating := some 4 },
        { barePlace "B" "four" with price_level := some 4, rating := some 3 }])[0]? =
      some { barePlace "B" "four" with price_level := some 4, rating := some 3 } := by
    rw [h]; rfl
  have h1 : (filteredPlaces distanceOf { openNow := false, maxPrice := 4, maxDistance := 5 } none
      [{ barePlace "A" "two" with price_level := some 2, rating := some 4 },
        { barePlace "B" "four" with price_level := some 4, rating := some 3 }])[1]? =
      some { barePlace "A" "two" with price_level := some 2, rating := some 4 } := by
    rw [h]; rfl
  ⟨h0, h1, (filteredPlaces_priceMatch_first distanceOf
    { openNow := false, maxPrice := 4, maxDistance := 5 } none _).1 0 1 _ _ h0 h1 rfl
    (by decide)⟩

/-- C14: rating ranking. Among results of `filteredPlaces` that agree on
whether their price tier equals `maxPrice`, ratings are non-increasing along
the output, an absent rating counting as `0`: first with the price read as
the sort callback reads it (`price_level || 0`), then, for `maxPrice` other
than `0`, with the price tier itself. -/
theorem filteredPlaces_rating_order (dist : ℚ → ℚ → ℚ → ℚ → ℚ) (filters : NearbyFilters)
    (location : Option Coordinate) (places : List Place) :
    (∀ (i j : Nat) (a b : Place), i < j →
        (filteredPlaces dist filters location places)[i]? = some a →
        (filteredPlaces dist filters location places)[j]? = some b →
        (a.price_level.getD 0 = filters.maxPrice ↔ b.price_level.getD 0 = filters.maxPrice) →
        b.rating.getD 0 ≤ a.rating.getD 0) ∧
      (filters.maxPrice ≠ 0 → ∀ (i j : Nat) (a b : Place), i < j →
        (filteredPlaces dist filters location places)[i]? = some a →
        (filteredPlaces dist filters location places)[j]? = some b →
        (a.price_level = some filters.maxPrice ↔ b.price_level = some filters.maxPrice) →
        b.rating.getD 0 ≤ a.rating.getD 0) := by
  have key : ∀ (i j : Nat) (a b : Place), i < j →
      (filteredPlaces dist filters location places)[i]? = some a →
      (filteredPlaces dist filters location places)[j]? = some b →
      (a.price_level.getD 0 = filters.maxPrice ↔ b.price_level.getD 0 = filters.maxPrice) →
      b.rating.getD 0 ≤ a.rating.getD 0 := by
    intro i j a b hij ha hb hagree
    have := (comparePlaces_le_iff filters a b).mp
      (filteredPlaces_rel dist filters location places i j a b hij ha hb)
    rcases this with ⟨h1, h2⟩ | ⟨_, h⟩
    · exact absurd (hagree.mp h1) h2
    · exact h
  refine ⟨key, ?_⟩
  intro hne i j a b hij ha hb hagree
  apply key i j a b hij ha hb
  rw [price_getD_eq_iff filters hne a, price_getD_eq_iff filters hne b]
  exact hagree

theorem filteredPlaces_rating_order_witness :
    (0 < 1 ∧
      (filteredPlaces distanceOf { openNow := false, maxPrice := 4, maxDistance := 5 } none
        [{ barePlace "A" "low" with price_level := some 2, rating := some 3 },
          { barePlace "B" "high" with price_level := some 2, rating := some 4 }])[0]? =
        some { barePlace "B" "high" with price_level := some 2, rating := some 4 } ∧
      (filteredPlaces distanceOf { openNow := false, maxPrice := 4, maxDistance := 5 } none
        [{ barePlace "A" "low" with price_level := some 2, rating := some 3 },
          { barePlace "B" "high" with price_level := some 2, rating := some 4 }])[1]? =
        some { barePlace "A" "low" with price_level := some 2, rating := some 3 }) ∧
      (some (3 : ℚ)).getD 0 ≤ (some (4 : ℚ)).getD 0 :=
  have h : filteredPlaces distanceOf { openNow := false, maxPrice := 4, maxDistance := 5 } none
      [{ barePlace "A" "low" with price_level := some 2, rating := some 3 },
        { barePlace "B" "high" with price_level := some 2, rating := some 4 }] =
      [{ barePlace "B" "high" with price_level := some 2, rating := some 4 },
        { barePlace "A" "low" with price_level := some 2, rating := some 3 }] := by
    simp [filteredPlaces, keepPlace, barePlace, comparePlaces, List.insertionSort,
      List.orderedInsert]
    norm_num
  have h0 : (filteredPlaces distanceOf { openNow := false, maxPrice := 4, maxDistance := 5 } none
      [{ barePlace "A" "low" with price_level := some 2, rating := some 3 },
        { barePlace "B" "high" with price_level := some 2, rating := some 4 }])[0]? =
      some { barePlace "B" "high" with price_level := some 2, rating := some 4 } := by
    rw [h]; rfl
  have h1 : (filteredPlaces distanceOf { openNow := false, maxPrice := 4, maxDistance := 5 } none
      [{ barePlace "A" "low" with price_level := some 2, rating := some 3 },
        { barePlace "B" "high" with price_level := some 2, rating := some 4 }])[1]? =
      some { barePlace "A" "low" with price_level := some 2, rating := some 3 } := by
    rw [h]; rfl
  ⟨⟨by decide, h0, h1⟩,
    (filteredPlaces_rating_order distanceOf { openNow := false, maxPrice := 4, maxDistance := 5 }
      none _).1 0 1 _ _ (by decide) h0 h1 (by decide)⟩

/-- C15: stability of the ranking. Two results of the output of `filteredPlaces`
that agree on price-match and on rating (absent as `0`) and stand in the order
`a`, `b` in the input list stand in that order in the output: first with the
price read as the sort callback reads it (`price_level || 0`), then, for
`maxPrice` other than `0`, with the price tier itself. -/
theorem filteredPlaces_stable (dist : ℚ → ℚ → ℚ → ℚ → ℚ) (filters : NearbyFilters)
    (location : Option Coordinate) (places : List Place) :
    (∀ a b : Place, [a, b].Sublist places →
        a ∈ filteredPlaces dist filters location places →
        b ∈ filteredPlaces dist filters location places →
        (a.price_level.getD 0 = filters.maxPrice ↔ b.price_level.getD 0 = filters.maxPrice) →
        a.rating.getD 0 = b.rating.getD 0 →
        [a, b].Sublist (filteredPlaces dist filters location places)) ∧
      (filters.maxPrice ≠ 0 → ∀ a b : Place, [a, b].Sublist places →
        a ∈ filteredPlaces dist filters location places →
        b ∈ filteredPlaces dist filters location places →
        (a.price_level = some filters.maxPrice ↔ b.price_level = some filters.maxPrice) →
        a.rating.getD 0 = b.rating.getD 0 →
        [a, b].Sublist (filteredPlaces dist filters location places)) := by
  have key : ∀ a b : Place, [a, b].Sublist places →
      a ∈ filteredPlaces dist filters location places →
      b ∈ filteredPlaces dist filters location places →
      (a.price_level.getD 0 = filters.maxPrice ↔ b.price_level.getD 0 = filters.maxPrice) →
      a.rating.getD 0 = b.rating.getD 0 →
      [a, b].Sublist (filteredPlaces dist filters location places) := by
    intro a b hsub ha hb hagree hrate
    have ka := ((mem_filteredPlaces dist filters location places a).mp ha).2
    have kb := ((mem_filteredPlaces dist filters location places b).mp hb).2
    have hf : [a, b].Sublist (places.filter (keepPlace dist filters location)) := by
      have := hsub.filter (keepPlace dist filters location)
      simpa [List.filter, ka, kb] using this
    have hle : comparePlaces filters a b ≤ 0 :=
      (comparePlaces_le_iff filters a b).mpr (Or.inr ⟨hagree, le_of_eq hrate.symm⟩)
    exact List.pair_sublist_insertionSort hle hf
  refine ⟨key, ?_⟩
  intro hne a b hsub ha hb hagree hrate
  apply key a b hsub ha hb _ hrate
  rw [price_getD_eq_iff filters hne a, price_getD_eq_iff filters hne b]
  exact hagree

/-- C16: the ranker never introduces duplicates. The output of `filteredPlaces`
is a permutation of the sub-list of the input results that pass the filter, so
when the `place_id`s of the input are distinct, those of the output are. -/
theorem filteredPlaces_perm (dist : ℚ → ℚ → ℚ → ℚ → ℚ) (filters : NearbyFilters)
    (location : Option Coordinate) (places : List Place) :
    (filteredPlaces dist filters location places).Perm
        (places.filter (keepPlace dist filters location)) ∧
      (places.filter (keepPlace dist filters location)).Sublist places ∧
      ((places.map Place.place_id).Nodup →
        ((filteredPlaces dist filters location places).map Place.place_id).Nodup) := by
  have hperm : (filteredPlaces dist filters location places).Perm
      (places.filter (keepPlace dist filters location)) := List.perm_insertionSort _ _
  refine ⟨hperm, List.filter_sublist _, ?_⟩
  intro hnodup
  rw [(hperm.map Place.place_id).nodup_iff]
  exact hnodup.sublist ((List.filter_sublist _).map Place.place_id)

theorem filteredPlaces_stable_witness :
    ([barePlace "A" "first", barePlace "B" "second"].Sublist
        [barePlace "A" "first", barePlace "B" "second"] ∧
      barePlace "A" "first" ∈
        filteredPlaces distanceOf { openNow := false, maxPrice := 4, maxDistance := 5 } none
          [barePlace "A" "first", barePlace "B" "second"] ∧
      barePlace "B" "second" ∈
        filteredPlaces distanceOf { openNow := false, maxPrice := 4, maxDistance := 5 } none
          [barePlace "A" "first", barePlace "B" "second"]) ∧
      [barePlace "A" "first", barePlace "B" "second"].Sublist
        (filteredPlaces distanceOf { openNow := false, maxPrice := 4, maxDistance := 5 } none
          [barePlace "A" "first", barePlace "B" "second"]) :=
  have ha : barePlace "A" "first" ∈
      filteredPlaces distanceOf { openNow := false, maxPrice := 4, maxDistance := 5 } none
        [barePlace "A" "first", barePlace "B" "second"] := by
    rw [mem_filteredPlaces]
    exact ⟨List.mem_cons_self _ _, by simp [keepPlace, barePlace]⟩
  have hb : barePlace "B" "second" ∈
      filteredPlaces distanceOf { openNow := false, maxPrice := 4, maxDistance := 5 } none
        [barePlace "A" "first", barePlace "B" "second"] := by
    rw [mem_filteredPlaces]
    exact ⟨List.mem_cons_of_mem _ (List.mem_cons_self _ _), by simp [keepPlace, barePlace]⟩
  ⟨⟨List.Sublist.refl _, ha, hb⟩,
    (filteredPlaces_stable distanceOf { openNow := false, maxPrice := 4, maxDistance := 5 } none
      [barePlace "A" "first", barePlace "B" "second"]).1 _ _ (List.Sublist.refl _) ha hb
      (by decide) rfl⟩

theorem filteredPlaces_perm_witness :
    ([{ barePlace "A" "low" with rating := some 3 },
        { barePlace "B" "high" with rating := some 4 },
        { barePlace "C" "dear" with price_level := some 5 }].map Place.place_id).Nodup ∧
      filteredPlaces (fun _ _ _ _ => 0) { openNow := false, maxPrice := 4, maxDistance := 5 }
          (some ⟨0, 0⟩)
          [{ barePlace "A" "low" with rating := some 3 },
            { barePlace "B" "high" with rating := some 4 },
            { barePlace "C" "dear" with price_level := some 5 }] =
        [{ barePlace "B" "high" with rating := some 4 },
          { barePlace "A" "low" with rating := some 3 }] ∧
      ((filteredPlaces (fun _ _ _ _ => 0) { openNow := false, maxPrice := 4, maxDistance := 5 }
        (some ⟨0, 0⟩)
        [{ barePlace "A" "low" with rating := some 3 },
          { barePlace "B" "high" with rating := some 4 },
          { barePlace "C" "dear" with price_level := some 5 }]).map Place.place_id).Nodup :=
  have hin : ([{ barePlace "A" "low" with rating := some 3 },
      { barePlace "B" "high" with rating := some 4 },
      { barePlace "C" "dear" with price_level := some 5 }].map Place.place_id).Nodup := by
    decide
  have hout : filteredPlaces (fun _ _ _ _ => 0)
      { openNow := false, maxPrice := 4, maxDistance := 5 } (some ⟨0, 0⟩)
      [{ barePlace "A" "low" with rating := some 3 },
        { barePlace "B" "high" with rating := some 4 },
        { barePlace "C" "dear" with price_level := some 5 }] =
      [{ barePlace "B" "high" with rating := some 4 },
        { barePlace "A" "low" with rating := some 3 }] := by
    simp [filteredPlaces, keepPlace, barePlace, comparePlaces, List.insertionSort,
      List.orderedInsert, List.filter]
    norm_num
  ⟨hin, hout,
    (filteredPlaces_perm (fun _ _ _ _ => 0) { openNow := false, maxPrice := 4, maxDistance := 5 }
      (some ⟨0, 0⟩) _).2.2 hin⟩

/-! ## The nearby-search request -/

/-- The loop reads the nearby search only at the requests built for the
points it visits. -/
theorem collectSpots_congr (search search' : NearbySearch) (filters : RouteFilters)
    (points : List Coordinate) :
    ∀ spots : List Place,
      (∀ point ∈ points,
        search (nearbyRequest filters point) = search' (nearbyRequest filters point)) →
      collectSpots search filters points spots = collectSpots search' filters points spots := by
  induction points with
  | nil => intro spots _; rfl
  | cons point points ih =>
    intro spots h
    have h0 := h point (List.mem_cons_self _ _)
    have hrest := fun q hq => h q (List.mem_cons_of_mem _ hq)
    rw [collectSpots, collectSpots, ← h0]
    cases search (nearbyRequest filters point) with
    | error e => rfl
    | ok data =>
      cases data with
      | none => exact ih spots hrest
      | some r => exact ih (spots ++ r) hrest

/-- C20: the nearby-search request built per sample. For every sampled point
and filter state the request has `location` the point, `radius`
`maxDistanceFromRoute * 1609`, `type` `restaurant`, a `keyword` exactly when
`foodType` is not empty, then equal to it, and `opennow=true` exactly when
`openNow` is set; and `fetchFoodSpotsAlongRoute` calls the search with these
requests only, those of the sampled points. -/
theorem nearbyRequest_fields (filters : RouteFilters) (point : Coordinate) :
    (nearbyRequest filters point).location = point ∧
      (nearbyRequest filters point).radius = filters.maxDistanceFromRoute * 1609 ∧
      (nearbyRequest filters point).type = "restaurant" ∧
      (filters.foodType ≠ "" → (nearbyRequest filters point).keyword = some filters.foodType) ∧
      (filters.foodType = "" → (nearbyRequest filters point).keyword = none) ∧
      ((nearbyRequest filters point).opennow = true ↔ filters.openNow = true) ∧
      (∀ (search search' : NearbySearch) (path : List Coordinate),
        (∀ p ∈ sampled path, search (nearbyRequest filters p) = search' (nearbyRequest filters p)) →
        fetchFoodSpotsAlongRoute search filters path =
          fetchFoodSpotsAlongRoute search' filters path) := by
  refine ⟨rfl, rfl, rfl, ?_, ?_, Iff.rfl, ?_⟩
  · intro h
    simp [nearbyRequest, h]
  · intro h
    simp [nearbyRequest, h]
  · intro search search' path h
    unfold fetchFoodSpotsAlongRoute
    rw [collectSpots_congr search search' filters (sampled path) [] h]

theorem nearbyRequest_fields_witness :
    ({ foodType := "tacos", maxDistanceFromRoute := 2, openNow := true } : RouteFilters).foodType
        ≠ "" ∧
      (nearbyRequest { foodType := "tacos", maxDistanceFromRoute := 2, openNow := true }
        ⟨3, 4⟩).keyword = some "tacos" :=
  ⟨by decide,
    (nearbyRequest_fields { foodType := "tacos", maxDistanceFromRoute := 2, openNow := true }
      ⟨3, 4⟩).2.2.2.1 (by decide)⟩

/-! ## The radius of the nearby-search request -/

theorem pressRoute_mem (filters : RouteFilters) (press : RoutePress)
    (h : filters.maxDistanceFromRoute ∈ ([1 / 2, 1, 2, 5] : List ℚ)) :
    (pressRoute filters press).maxDistanceFromRoute ∈ ([1 / 2, 1, 2, 5] : List ℚ) := by
  cases press with
  | openNow => exact h
  | foodType i => exact h
  | distance i => exact List.get_mem _ _ _
  | clear => simp [pressRoute]

theorem foldl_pressRoute_mem (presses : List RoutePress) :
    ∀ filters : RouteFilters,
      filters.maxDistanceFromRoute ∈ ([1 / 2, 1, 2, 5] : List ℚ) →
      (presses.foldl pressRoute filters).maxDistanceFromRoute ∈ ([1 / 2, 1, 2, 5] : List ℚ) := by
  induction presses with
  | nil => intro filters h; exact h
  | cons press presses ih =>
    intro filters h
    exact ih _ (pressRoute_mem filters press h)

/-- Every state `filters` the route screen can hold has its
`maxDistanceFromRoute` among 0.5, 1, 2, 5. -/
theorem routeFiltersAfter_mem (presses : List RoutePress) :
    (routeFiltersAfter presses).maxDistanceFromRoute ∈ ([1 / 2, 1, 2, 5] : List ℚ) := by
  apply foldl_pressRoute_mem
  simp [initialRouteFilters]

/-- C21: the radius sent stays within the API maximum. For every value of
`maxDistanceFromRoute` that the state `filters` of the route screen can hold
(the initial one, or the one after any presses of the filter buttons), the
radius of a nearby-search request, `maxDistanceFromRoute * 1609`, is at most
8045 meters, hence at most 50000 meters; the largest is reached by the
5-mile button. -/
theorem nearbyRequest_radius (presses : List RoutePress) (point : Coordinate) :
    (nearbyRequest (routeFiltersAfter presses) point).radius =
        (routeFiltersAfter presses).maxDistanceFromRoute * 1609 ∧
      (nearbyRequest (routeFiltersAfter presses) point).radius ≤ 8045 ∧
      (nearbyRequest (routeFiltersAfter presses) point).radius ≤ 50000 ∧
      (nearbyRequest (routeFiltersAfter [RoutePress.distance 3]) point).radius = 8045 := by
  have h := routeFiltersAfter_mem presses
  have hle : (routeFiltersAfter presses).maxDistanceFromRoute * 1609 ≤ 8045 := by
    simp only [List.mem_cons, List.mem_singleton, List.not_mem_nil, or_false] at h
    rcases h with h | h | h | h <;> rw [h] <;> norm_num
  refine ⟨rfl, hle, le_trans hle (by norm_num), ?_⟩
  show (5 : ℚ) * 1609 = 8045
  norm_num

/-! ## `filteredPlaces` on an empty list -/

/-- C22: empty input yields empty output, not an error. For every criteria and
reference location, present or not, `filteredPlaces` applied to the empty
result list is the empty list; so the list shown after `fetchPlaces` got a
response with zero results is empty. -/
theorem filteredPlaces_nil (dist : ℚ → ℚ → ℚ → ℚ → ℚ) (filters : NearbyFilters)
    (location : Option Coordinate) (coords : Coordinate) (st : NearbyState) :
    filteredPlaces dist filters location [] = [] ∧
      shownPlaces filters (fetchPlaces true coords (Except.ok []) st) = [] := by
  constructor <;> simp [shownPlaces, fetchPlaces, sortOpenFirst, filteredPlaces]

/-! ## Order and coverage of the deduplication -/

theorem distinctInOrder_append_singleton (ids : List String) (id : String) :
    distinctInOrder (ids ++ [id]) =
      if id ∈ distinctInOrder ids then distinctInOrder ids else distinctInOrder ids ++ [id] := by
  simp [distinctInOrder, List.foldl_append]

/-- The keys of the accumulator of the `reduce`, in creation order, are the
distinct identifiers of the input other than `"__proto__"` in the order of
their first occurrence. -/
theorem reduceById_keys (spots : List Place) :
    (reduceById spots).map Prod.fst =
      distinctInOrder ((spots.map Place.place_id).filter (fun id => id ≠ "__proto__")) := by
  induction spots using List.reverseRecOn with
  | nil => simp [reduceById, distinctInOrder]
  | append_singleton spots s ih =>
    rw [reduceById_append, List.map_append, List.filter_append]
    unfold objectSet
    by_cases hp : s.place_id = "__proto__"
    · rw [if_pos hp, ih]
      simp [hp]
    · rw [if_neg hp, setOwn_keys, ih]
      have hf : List.filter (fun id => decide (id ≠ "__proto__")) (List.map Place.place_id [s]) =
          [s.place_id] := by
        simp [hp]
      rw [hf, distinctInOrder_append_singleton]

/-- With no array-index key, `Object.values` lists the values in creation order. -/
theorem objectValues_of_no_index {α : Type} (obj : JsObject α)
    (h : ∀ kv ∈ obj, arrayIndex? kv.1 = none) : objectValues obj = obj.map Prod.snd := by
  unfold objectValues
  have h1 : obj.filter (fun kv => (arrayIndex? kv.1).isSome) = [] := by
    rw [List.filter_eq_nil_iff]
    intro kv hkv
    simp [h kv hkv]
  have h2 : obj.filter (fun kv => !(arrayIndex? kv.1).isSome) = obj := by
    rw [List.filter_eq_self]
    intro kv hkv
    simp [h kv hkv]
  rw [h1, h2]
  simp

/-- The identifiers of the deduplicated records when no identifier of the input
is an array index. -/
theorem dedupeSpots_ids (spots : List Place)
    (h : ∀ s ∈ spots, arrayIndex? s.place_id = none) :
    (dedupeSpots spots).map Place.place_id =
      distinctInOrder ((spots.map Place.place_id).filter (fun id => id ≠ "__proto__")) := by
  obtain ⟨_, h2, _⟩ := reduceById_spec spots
  have hobj : ∀ kv ∈ reduceById spots, arrayIndex? kv.1 = none := by
    intro kv hkv
    obtain ⟨a, _, c⟩ := h2 kv hkv
    have hmem : kv.2 ∈ spots := by
      have := List.mem_of_find?_eq_some c
      exact List.mem_reverse.mp this
    rw [← a]
    exact h kv.2 hmem
  rw [dedupeSpots, objectValues_of_no_index _ hobj, ← reduceById_keys, List.map_map]
  apply List.map_congr_left
  intro kv hkv
  exact (h2 kv hkv).1

/-- C23 (counterexample): of the two records with identifiers `"__proto__"` and
`"b"`, neither a canonical non-negative integer string, the deduplication
returns only the one with identifier `"b"`: the identifier `"__proto__"` is
lost. -/
theorem dedupeSpots_loses_proto :
    (∀ s ∈ [barePlace "__proto__" "a", barePlace "b" "b"], arrayIndex? s.place_id = none) ∧
      (dedupeSpots [barePlace "__proto__" "a", barePlace "b" "b"]).map Place.place_id = ["b"] ∧
      distinctInOrder ([barePlace "__proto__" "a", barePlace "b" "b"].map Place.place_id) =
        ["__proto__", "b"] := by
  decide

/-- C23 (as amended): identifier order and coverage of the aggregation. For
every concatenated result list whose `place_id`s are neither canonical
non-negative integer strings nor `"__proto__"`, the `place_id`s of the output
of the deduplication are the distinct `place_id`s of the concatenation in the
order of their first occurrence: none is lost and none is reordered. -/
theorem dedupeSpots_order (spots : List Place)
    (h : ∀ s ∈ spots, arrayIndex? s.place_id = none)
    (hp : ∀ s ∈ spots, s.place_id ≠ "__proto__") :
    (dedupeSpots spots).map Place.place_id = distinctInOrder (spots.map Place.place_id) := by
  rw [dedupeSpots_ids spots h]
  congr 1
  rw [List.filter_eq_self]
  intro id hid
  obtain ⟨s, hs, rfl⟩ := List.mem_map.mp hid
  simpa using hp s hs

theorem dedupeSpots_order_witness :
    ((∀ s ∈ [barePlace "b" "1", barePlace "a" "2", barePlace "b" "3"],
        arrayIndex? s.place_id = none) ∧
      (∀ s ∈ [barePlace "b" "1", barePlace "a" "2", barePlace "b" "3"],
        s.place_id ≠ "__proto__")) ∧
      distinctInOrder ([barePlace "b" "1", barePlace "a" "2", barePlace "b" "3"].map
        Place.place_id) = ["b", "a"] ∧
      (dedupeSpots [barePlace "b" "1", barePlace "a" "2", barePlace "b" "3"]).map
          Place.place_id =
        distinctInOrder ([barePlace "b" "1", barePlace "a" "2", barePlace "b" "3"].map
          Place.place_id) :=
  ⟨⟨by decide, by decide⟩, by decide,
    dedupeSpots_order [barePlace "b" "1", barePlace "a" "2", barePlace "b" "3"]
      (by decide) (by decide)⟩

/-! ## Open places first among ties -/

/-- Inserting `a` into a list sorted by `r`, with ties in the order `S`, keeps it
so when `a` stands in the relation `S` to every element of the list. -/
theorem pairwise_lex_orderedInsert {α : Type} (r : α → α → Prop) [DecidableRel r]
    (S : α → α → Prop) (htot : ∀ a b, r a b ∨ r b a) (htrans : ∀ a b c, r a b → r b c → r a c)
    (a : α) (l : List α) (hl : l.Pairwise (fun x y => r x y ∧ (r y x → S x y)))
    (hS : ∀ y ∈ l, S a y) :
    (l.orderedInsert r a).Pairwise (fun x y => r x y ∧ (r y x → S x y)) := by
  induction l with
  | nil => simp
  | cons b l ih =>
    rw [List.orderedInsert]
    rw [List.pairwise_cons] at hl
    obtain ⟨hb, hl'⟩ := hl
    split_ifs with hab
    · rw [List.pairwise_cons]
      refine ⟨?_, List.pairwise_cons.mpr ⟨hb, hl'⟩⟩
      intro y hy
      rcases List.mem_cons.mp hy with h | h
      · subst h
        exact ⟨hab, fun _ => hS _ (List.mem_cons_self _ _)⟩
      · exact ⟨htrans a b y hab (hb y h).1, fun _ => hS y (List.mem_cons_of_mem _ h)⟩
    · rw [List.pairwise_cons]
      refine ⟨?_, ih hl' (fun y hy => hS y (List.mem_cons_of_mem _ hy))⟩
      intro y hy
      rcases (List.mem_orderedInsert r).mp hy with h | h
      · subst h
        exact ⟨(htot y b).resolve_left hab, fun h' => absurd h' hab⟩
      · exact hb y h

/-- A stable sort of a list already in the order `S` is sorted by `r` with ties
in the order `S`. -/
theorem pairwise_lex_insertionSort {α : Type} (r : α → α → Prop) [DecidableRel r]
    (S : α → α → Prop) (htot : ∀ a b, r a b ∨ r b a) (htrans : ∀ a b c, r a b → r b c → r a c)
    (l : List α) (hl : l.Pairwise S) :
    (l.insertionSort r).Pairwise (fun x y => r x y ∧ (r y x → S x y)) := by
  induction l with
  | nil => simp
  | cons a l ih =>
    rw [List.pairwise_cons] at hl
    rw [List.insertionSort]
    apply pairwise_lex_orderedInsert r S htot htrans a _ (ih hl.2)
    intro y hy
    exact hl.1 y ((List.mem_insertionSort r).mp hy)

/-- The array stored by `fetchPlaces` has every open place before every place
that is not open. -/
theorem sortOpenFirst_pairwise (results : List Place) :
    (sortOpenFirst results).Pairwise (fun a b => openRank b ≤ openRank a) := by
  haveI : IsTotal Place (fun a b => compareOpen a b ≤ 0) :=
    ⟨fun a b => by unfold compareOpen; omega⟩
  haveI : IsTrans Place (fun a b => compareOpen a b ≤ 0) :=
    ⟨fun a b c hab hbc => by unfold compareOpen at *; omega⟩
  have h := List.sorted_insertionSort (fun a b => compareOpen a b ≤ 0) results
  refine List.Pairwise.imp ?_ h
  intro a b hab
  unfold compareOpen at hab
  omega

/-- In the list shown after `fetchPlaces` stored a response, two results that
the sort callback of `filteredPlaces` ties stand with the open one first. -/
theorem shownPlaces_ties (filters : NearbyFilters) (coords : Coordinate)
    (results : List Place) (st : NearbyState) (i j : Nat) (a b : Place)
    (ha : (shownPlaces filters (fetchPlaces true coords (Except.ok results) st))[i]? = some a)
    (hb : (shownPlaces filters (fetchPlaces true coords (Except.ok results) st))[j]? = some b)
    (hao : a.open_now = some true) (hbo : b.open_now ≠ some true)
    (hprice : a.price_level.getD 0 = filters.maxPrice ↔ b.price_level.getD 0 = filters.maxPrice)
    (hrate : a.rating.getD 0 = b.rating.getD 0) : i < j := by
  have hshown : shownPlaces filters (fetchPlaces true coords (Except.ok results) st) =
      ((sortOpenFirst results).filter (keepPlace distanceOf filters (some coords))).insertionSort
        (fun a b => comparePlaces filters a b ≤ 0) := by
    simp [shownPlaces, fetchPlaces, filteredPlaces]
  rw [hshown] at ha hb
  have hin : ((sortOpenFirst results).filter (keepPlace distanceOf filters (some coords))).Pairwise
      (fun a b => openRank b ≤ openRank a) :=
    (sortOpenFirst_pairwise results).sublist (List.filter_sublist _)
  have hlex := List.pairwise_iff_getElem.mp
    (pairwise_lex_insertionSort (fun a b => comparePlaces filters a b ≤ 0)
      (fun a b => openRank b ≤ openRank a) (comparePlaces_total filters)
      (comparePlaces_trans filters) _ hin)
  obtain ⟨hi, hai⟩ := List.getElem?_eq_some.mp ha
  obtain ⟨hj, hbj⟩ := List.getElem?_eq_some.mp hb
  have htie : comparePlaces filters a b ≤ 0 :=
    (comparePlaces_le_iff filters a b).mpr (Or.inr ⟨hprice, le_of_eq hrate.symm⟩)
  have hra : openRank a = 1 := by simp [openRank, hao]
  have hrb : openRank b = 0 := by simp [openRank, hbo]
  by_contra hlt
  rcases Nat.lt_or_eq_of_le (Nat.le_of_not_lt hlt) with h | h
  · have := hlex j i hj hi h
    rw [hai, hbj] at this
    have := this.2 htie
    omega
  · subst h
    rw [hai] at hbj
    subst hbj
    exact hbo hao

/-- C24: open places first among ties. `fetchPlaces` stores the results sorted
open-first and the ranking sort is stable, so in the list shown any two
results that agree on price-match and on rating stand with the currently-open
one before the not-open one: for every filter state with the price read as the
sort callback reads it (`price_level || 0`), and for the default filters with
the price tier itself. -/
theorem shownPlaces_open_first (coords : Coordinate) (results : List Place) (st : NearbyState) :
    (∀ (filters : NearbyFilters) (i j : Nat) (a b : Place),
        (shownPlaces filters (fetchPlaces true coords (Except.ok results) st))[i]? = some a →
        (shownPlaces filters (fetchPlaces true coords (Except.ok results) st))[j]? = some b →
        a.open_now = some true → b.open_now ≠ some true →
        (a.price_level.getD 0 = filters.maxPrice ↔ b.price_level.getD 0 = filters.maxPrice) →
        a.rating.getD 0 = b.rating.getD 0 → i < j) ∧
      (∀ (i j : Nat) (a b : Place),
        (shownPlaces defaultFilters (fetchPlaces true coords (Except.ok results) st))[i]? =
          some a →
        (shownPlaces defaultFilters (fetchPlaces true coords (Except.ok results) st))[j]? =
          some b →
        a.open_now = some true → b.open_now ≠ some true →
        (a.price_level = some defaultFilters.maxPrice ↔
          b.price_level = some defaultFilters.maxPrice) →
        a.rating.getD 0 = b.rating.getD 0 → i < j) := by
  constructor
  · intro filters i j a b ha hb hao hbo hprice hrate
    exact shownPlaces_ties filters coords results st i j a b ha hb hao hbo hprice hrate
  · intro i j a b ha hb hao hbo hprice hrate
    have hne : defaultFilters.maxPrice ≠ 0 := by decide
    refine shownPlaces_ties defaultFilters coords results st i j a b ha hb hao hbo ?_ hrate
    rw [price_getD_eq_iff defaultFilters hne a, price_getD_eq_iff defaultFilters hne b]
    exact hprice

theorem shownPlaces_open_first_witness :
    ((shownPlaces defaultFilters (fetchPlaces true ⟨0, 0⟩
        (Except.ok [barePlace "C" "closed", { barePlace "O" "open" with open_now := some true }])
        ⟨none, [], true, false⟩))[0]? =
        some { barePlace "O" "open" with open_now := some true } ∧
      (shownPlaces defaultFilters (fetchPlaces true ⟨0, 0⟩
        (Except.ok [barePlace "C" "closed", { barePlace "O" "open" with open_now := some true }])
        ⟨none, [], true, false⟩))[1]? = some (barePlace "C" "closed")) ∧
      0 < 1 :=
  have h : shownPlaces defaultFilters (fetchPlaces true ⟨0, 0⟩
      (Except.ok [barePlace "C" "closed", { barePlace "O" "open" with open_now := some true }])
      ⟨none, [], true, false⟩) =
      [{ barePlace "O" "open" with open_now := some true }, barePlace "C" "closed"] := by
    simp [shownPlaces, fetchPlaces, sortOpenFirst, compareOpen, openRank, filteredPlaces,
      keepPlace, defaultFilters, barePlace, comparePlaces, List.insertionSort,
      List.orderedInsert]
  have h0 : (shownPlaces defaultFilters (fetchPlaces true ⟨0, 0⟩
      (Except.ok [barePlace "C" "closed", { barePlace "O" "open" with open_now := some true }])
      ⟨none, [], true, false⟩))[0]? =
      some { barePlace "O" "open" with open_now := some true } := by
    rw [h]; rfl
  have h1 : (shownPlaces defaultFilters (fetchPlaces true ⟨0, 0⟩
      (Except.ok [barePlace "C" "closed", { barePlace "O" "open" with open_now := some true }])
      ⟨none, [], true, false⟩))[1]? = some (barePlace "C" "closed") := by
    rw [h]; rfl
  ⟨⟨h0, h1⟩,
    (shownPlaces_open_first ⟨0, 0⟩
      [barePlace "C" "closed", { barePlace "O" "open" with open_now := some true }]
      ⟨none, [], true, false⟩).2 0 1 _ _ h0 h1 rfl (by decide) (by decide) rfl⟩

/-! ## The distance when the constant `a` leaves `[0, 1]` -/

/-- On a constant `a` in `[0, 1]` both square roots are numbers and the result
is the rounded distance. -/
theorem resultOfTerm_of_mem (a : ℝ) (h0 : 0 ≤ a) (h1 : a ≤ 1) :
    resultOfTerm a =
      some (toFixed1 (6371 * (2 * atan2 (Real.sqrt a) (Real.sqrt (1 - a))) * 0.621371)) := by
  unfold resultOfTerm sqrtOrNaN
  rw [if_neg (not_lt.mpr h0), if_neg (not_lt.mpr (by linarith : (0 : ℝ) ≤ 1 - a))]

/-- Over real arithmetic, for latitudes between -90 and 90 degrees, the constant
`a` is in `[0, 1]` and the result is a number, the one `getDistanceInMiles`
models. -/
theorem resultOfTerm_haversineTerm (lat1 lon1 lat2 lon2 : ℝ) (h1 : -90 ≤ lat1)
    (h2 : lat1 ≤ 90) (h3 : -90 ≤ lat2) (h4 : lat2 ≤ 90) :
    resultOfTerm (haversineTerm lat1 lon1 lat2 lon2) =
      some (getDistanceInMiles lat1 lon1 lat2 lon2) := by
  obtain ⟨a0, a1⟩ := haversineTerm_mem lat1 lon1 lat2 lon2 h1 h2 h3 h4
  rw [resultOfTerm_of_mem _ a0 a1]
  rfl

/-- On a constant `a` above `1` the argument of `Math.sqrt(1 - a)` is negative and
the result is `"NaN"`. -/
theorem resultOfTerm_above_one (a : ℝ) (h : 1 < a) : resultOfTerm a = none := by
  unfold resultOfTerm sqrtOrNaN
  rw [if_neg (not_lt.mpr (by linarith : (0 : ℝ) ≤ a)), if_pos (by linarith : 1 - a < 0)]

/-- C25 (failing input): for the valid coordinates `(0.08, 0)` and `(-0.08, 180)`
the doubles of the code give the constant `a` the value `1.0000000000000002`,
which is `1 + 2 ^ (-52)`. It is above `1`, so `1 - a` is negative,
`Math.sqrt(1 - a)` is `NaN` and `getDistanceInMiles` returns `"NaN"`: the
second square root is not defined and the result is no distance. -/
theorem getDistanceInMiles_nan_above_one :
    (1 : ℝ) < 1 + 1 / 2 ^ 52 ∧ (1 : ℝ) - (1 + 1 / 2 ^ 52) < 0 ∧
      sqrtOrNaN (1 - (1 + 1 / 2 ^ 52)) = none ∧ resultOfTerm (1 + 1 / 2 ^ 52) = none := by
  have h : (1 : ℝ) < 1 + 1 / 2 ^ 52 := by norm_num
  refine ⟨h, by linarith, ?_, resultOfTerm_above_one _ h⟩
  unfold sqrtOrNaN
  rw [if_pos (by linarith)]

/-! ## Termination of `decodePolyline` -/

/-- Every group read increments `index` at least once. -/
theorem readGroup_index_ge (rest : List Nat) :
    ∀ (index shift result : Nat), index + 1 ≤ (readGroup rest index shift result).2.1 := by
  induction rest with
  | nil => intro index shift result; simp [readGroup]
  | cons c cs ih =>
    intro index shift result
    rw [readGroup]
    split_ifs
    · have := ih (index + 1) (shift + 5) (result ||| shl32 (and0x1f ((c : Int) - 63)) shift)
      omega
    · simp

/-- After a group the characters left are those from the new `index` on. -/
theorem readGroup_rest_eq_drop (rest : List Nat) :
    ∀ (index shift result : Nat),
      (readGroup rest index shift result).2.2 =
        rest.drop ((readGroup rest index shift result).2.1 - index) := by
  induction rest with
  | nil => intro index shift result; simp [readGroup]
  | cons c cs ih =>
    intro index shift result
    rw [readGroup]
    split_ifs
    · have h1 := ih (index + 1) (shift + 5) (result ||| shl32 (and0x1f ((c : Int) - 63)) shift)
      have h2 := readGroup_index_ge cs (index + 1) (shift + 5)
        (result ||| shl32 (and0x1f ((c : Int) - 63)) shift)
      rw [h1]
      have : (readGroup cs (index + 1) (shift + 5)
          (result ||| shl32 (and0x1f ((c : Int) - 63)) shift)).2.1 - index =
          ((readGroup cs (index + 1) (shift + 5)
            (result ||| shl32 (and0x1f ((c : Int) - 63)) shift)).2.1 - (index + 1)) + 1 := by
        omega
      rw [this, List.drop_succ_cons]
    · simp

/-- The loop pushes at most one point for every two characters left, rounded up. -/
theorem decodeLoop_length_le (fuel : Nat) :
    ∀ (rest : List Nat) (index : Nat) (lat lng : Int) (points : List Coordinate),
      (decodeLoop fuel rest index lat lng points).length ≤
        points.length + (rest.length + 1) / 2 := by
  induction fuel with
  | zero => intro rest index lat lng points; simp [decodeLoop]
  | succ n ih =>
    intro rest index lat lng points
    by_cases hnil : rest = []
    · subst hnil
      simp [decodeLoop_nil]
    · rw [decodeLoop, if_neg hnil]
      simp only
      have hpos : 0 < rest.length := List.length_pos.mpr hnil
      have g1 := readGroup_rest_length rest index 0 0
      have g2 := readGroup_rest_length (readGroup rest index 0 0).2.2
        (readGroup rest index 0 0).2.1 0 0
      refine le_trans (ih _ _ _ _ _) ?_
      rw [List.length_append, List.length_singleton]
      omega

/-- C26: `decodePolyline` terminates on every input string, malformed ones
included: the loop stops after at most `t.length` passes, so allowing more
passes changes nothing; each pass advances `index` by at least 2, the
characters left being those from `index` on; and for a string of length `n`
it returns at most `⌈n / 2⌉` coordinates. -/
theorem decodePolyline_terminates (t : List Nat) :
    (∀ extra : Nat, decodeLoop (t.length + extra) t 0 0 0 [] = decodePolyline t) ∧
      (∀ (rest : List Nat) (index : Nat),
        index + 2 ≤
            (readGroup (readGroup rest index 0 0).2.2 (readGroup rest index 0 0).2.1 0 0).2.1 ∧
          (readGroup (readGroup rest index 0 0).2.2 (readGroup rest index 0 0).2.1 0 0).2.2 =
            rest.drop ((readGroup (readGroup rest index 0 0).2.2
              (readGroup rest index 0 0).2.1 0 0).2.1 - index)) ∧
      (decodePolyline t).length ≤ (t.length + 1) / 2 := by
  refine ⟨?_, ?_, ?_⟩
  · intro extra
    exact decodeLoop_fuel _ _ _ _ _ _ _ (by omega) (Nat.le_refl _)
  · intro rest index
    have i1 := readGroup_index_ge rest index 0 0
    have i2 := readGroup_index_ge (readGroup rest index 0 0).2.2 (readGroup rest index 0 0).2.1 0 0
    have d1 := readGroup_rest_eq_drop rest index 0 0
    have d2 := readGroup_rest_eq_drop (readGroup rest index 0 0).2.2
      (readGroup rest index 0 0).2.1 0 0
    refine ⟨by omega, ?_⟩
    refine (d2.trans (congrArg _ d1)).trans ?_
    rw [List.drop_drop]
    congr 1
    omega
  · have := decodeLoop_length_le t.length t 0 0 0 []
    simpa [decodePolyline] using this

end Ravn
